import Mathlib

/-!
Verification of the daemon core of `claude-notify-gnome` against its
natural-language specification.  The Python sources are shallowly embedded:
pure functions become Lean functions, the wall clock is passed explicitly as
a `Nat`, fallible code returns `Option`, and the in-place mutation of
sessions held by the registry becomes explicit state passing (read, update,
write back).  JSON values are modelled by the inductive `Json` below;
`json.dumps(..., separators=(",",":"))` and `json.loads` are modelled by
`Json.dumpsChars` and `parseJson`.  Float literals are kept syntactically
(constructor `Json.floatLit`); exotic inputs that only Python's `json`
accepts (`NaN`, `Infinity`, lone-surrogate escapes) are not modelled.
-/

namespace ClaudeNotify

/-! ## Python string primitives -/

/-- Characters removed by Python's `str.strip()` (ASCII whitespace; the
rarely relevant non-ASCII Unicode spaces are not modelled). -/
def isPySpace (c : Char) : Bool :=
  c = ' ' || c = '\t' || c = '\n' || c = '\r' || c = '\x0b' || c = '\x0c'

/-- Drop leading Python whitespace. -/
def stripLeadingWs (l : List Char) : List Char := l.dropWhile isPySpace

/-- Drop trailing Python whitespace. -/
def stripTrailingWs (l : List Char) : List Char :=
  ((l.reverse).dropWhile isPySpace).reverse

/-- Python `str.strip()` on a list of characters. -/
def pyStrip (l : List Char) : List Char := stripTrailingWs (stripLeadingWs l)

/-- Python `s.split("\n", 1)`: split at the first newline, if any. -/
def splitOnceNl : List Char → List Char × Option (List Char)
  | [] => ([], none)
  | c :: rest =>
    if c = '\n' then ([], some rest)
    else
      let r := splitOnceNl rest
      (c :: r.1, r.2)

/-- Python `s.rstrip(ch)` for a single strip character. -/
def pyRstripChar (l : List Char) (ch : Char) : List Char :=
  ((l.reverse).dropWhile (fun c => c = ch)).reverse

/-- Python `s.split(sep)` for a one-character separator: always returns at
least one (possibly empty) piece. -/
def splitChar : List Char → Char → List (List Char)
  | [], _ => [[]]
  | c :: rest, sep =>
    let r := splitChar rest sep
    if c = sep then [] :: r
    else
      match r with
      | h :: t => (c :: h) :: t
      | [] => [[c]]

/-- Python truthiness of an optional string (`None` and `""` are falsy). -/
def optStrTruthy : Option String → Bool
  | none => false
  | some s => s ≠ ""

/-- Python truthiness of an optional int (`None` and `0` are falsy). -/
def optNatTruthy : Option Nat → Bool
  | none => false
  | some n => n ≠ 0

/-! ## Decimal and hexadecimal digits -/

def digitChar (n : Nat) : Char :=
  if n < 10 then Char.ofNat (48 + n) else Char.ofNat (87 + n)

/-- Decimal digits of a natural number, most significant first
(models Python `repr` of a non-negative int). -/
def natToChars (n : Nat) : List Char :=
  if _h : n < 10 then [digitChar n]
  else natToChars (n / 10) ++ [digitChar (n % 10)]
  decreasing_by exact Nat.div_lt_self (by omega) (by omega)

/-- Decimal representation of an integer, models Python `repr` of an int
(what `json.dumps` emits for ints). -/
def intToChars (n : Int) : List Char :=
  if n < 0 then '-' :: natToChars n.natAbs else natToChars n.natAbs

def hexDigitVal (c : Char) : Option Nat :=
  if '0' ≤ c ∧ c ≤ '9' then some (c.toNat - 48)
  else if 'a' ≤ c ∧ c ≤ 'f' then some (c.toNat - 87)
  else if 'A' ≤ c ∧ c ≤ 'F' then some (c.toNat - 55)
  else none

def decDigitVal (c : Char) : Option Nat :=
  if '0' ≤ c ∧ c ≤ '9' then some (c.toNat - 48) else none

/-- Fixed-width lowercase hex rendering (for `\uXXXX` escapes). -/
def natToHexFixed (n : Nat) : Nat → List Char
  | 0 => []
  | w + 1 => natToHexFixed (n / 16) w ++ [digitChar (n % 16)]

/-! ## JSON values

`Json` models the Python values handled by the `json` module: `None`,
bools, ints, floats (kept as their literal text), strings, lists and dicts
(as association lists in insertion order). -/

mutual
inductive Json where
  | null : Json
  | bool (b : Bool) : Json
  | num (n : Int) : Json
  | floatLit (lit : String) : Json
  | str (s : String) : Json
  | arr (xs : JsonArr) : Json
  | obj (fs : JsonObj) : Json
  deriving DecidableEq

inductive JsonArr where
  | nil : JsonArr
  | cons (hd : Json) (tl : JsonArr) : JsonArr
  deriving DecidableEq

inductive JsonObj where
  | nil : JsonObj
  | cons (k : String) (v : Json) (tl : JsonObj) : JsonObj
  deriving DecidableEq
end

/-- Dict lookup on a parsed JSON object.  Python's `json.loads` builds a
`dict`, where a duplicated key keeps the last occurrence, hence the
last-match rule. -/
def objGet : JsonObj → String → Option Json
  | .nil, _ => none
  | .cons k v tl, key =>
    match objGet tl key with
    | some r => some r
    | none => if k = key then some v else none

/-- Serialization of one character inside a JSON string literal, following
CPython's `json.dumps` with its default `ensure_ascii=True`. -/
def escapeChar (c : Char) : List Char :=
  if c = '\\' then ['\\', '\\']
  else if c = '"' then ['\\', '"']
  else if c = '\n' then ['\\', 'n']
  else if c = '\t' then ['\\', 't']
  else if c = '\r' then ['\\', 'r']
  else if c = '\x08' then ['\\', 'b']
  else if c = '\x0c' then ['\\', 'f']
  else if c.toNat < 0x20 then '\\' :: 'u' :: natToHexFixed c.toNat 4
  else if c.toNat ≤ 0x7e then [c]
  else if c.toNat < 0x10000 then '\\' :: 'u' :: natToHexFixed c.toNat 4
  else
    let n := c.toNat - 0x10000
    '\\' :: 'u' :: natToHexFixed (0xd800 + n / 0x400) 4 ++
      ('\\' :: 'u' :: natToHexFixed (0xdc00 + n % 0x400) 4)

def escapeString (s : String) : List Char :=
  s.data.foldr (fun c acc => escapeChar c ++ acc) []

mutual
/-- `json.dumps(v, separators=(",", ":"))` as a character list. -/
def Json.dumpsChars : Json → List Char
  | .null => 'n' :: 'u' :: ['l', 'l']
  | .bool true => 't' :: 'r' :: ['u', 'e']
  | .bool false => 'f' :: 'a' :: ['l', 's', 'e']
  | .num n => intToChars n
  | .floatLit lit => lit.data
  | .str s => '"' :: escapeString s ++ ['"']
  | .arr xs => '[' :: JsonArr.dumpsChars xs
  | .obj fs => '{' :: JsonObj.dumpsChars fs

def JsonArr.dumpsChars : JsonArr → List Char
  | .nil => [']']
  | .cons hd .nil => Json.dumpsChars hd ++ [']']
  | .cons hd (.cons h2 t2) => Json.dumpsChars hd ++ ',' :: JsonArr.dumpsChars (.cons h2 t2)

def JsonObj.dumpsChars : JsonObj → List Char
  | .nil => ['}']
  | .cons k v .nil => '"' :: escapeString k ++ '"' :: ':' :: Json.dumpsChars v ++ ['}']
  | .cons k v (.cons k2 v2 t2) =>
    '"' :: escapeString k ++ '"' :: ':' :: Json.dumpsChars v ++
      ',' :: JsonObj.dumpsChars (.cons k2 v2 t2)
end

/-- `json.dumps(v, separators=(",", ":"))` as a string. -/
def Json.dumps (v : Json) : String := String.mk v.dumpsChars

/-! ## JSON parsing (`json.loads`)

A recursive-descent parser over character lists, fuelled for termination.
It is deliberately a little more lenient than Python's (it tolerates
trailing commas and non-canonical int literals), so that an input it
rejects is also rejected by `json.loads`; `NaN`/`Infinity` literals and
lone-surrogate `\u` escapes, which only Python accepts, are not modelled. -/

/-- Whitespace skipped between JSON tokens. -/
def isWsJson (c : Char) : Bool := c = ' ' || c = '\t' || c = '\n' || c = '\r'

def skipWs (l : List Char) : List Char := l.dropWhile isWsJson

/-- Characters that can continue a JSON number token. -/
def isNumChar (c : Char) : Bool :=
  c.isDigit || c = '-' || c = '+' || c = '.' || c = 'e' || c = 'E'

def parseDigitsAux : Nat → List Char → Option Nat
  | acc, [] => some acc
  | acc, c :: rest =>
    match decDigitVal c with
    | some d => parseDigitsAux (acc * 10 + d) rest
    | none => none

/-- Parse a nonempty run of decimal digits. -/
def parseDigits : List Char → Option Nat
  | [] => none
  | l => parseDigitsAux 0 l

/-- Parse an optionally negated run of decimal digits as an integer. -/
def parseIntChars : List Char → Option Int
  | '-' :: rest => (parseDigits rest).map (fun n => -(Int.ofNat n))
  | l => (parseDigits l).map (fun n => Int.ofNat n)

/-- Parse the body of a JSON string literal (after the opening quote),
returning the decoded characters and the input after the closing quote. -/
def parseStringBody : List Char → Option (List Char × List Char)
  | [] => none
  | c :: rest =>
    if c = '"' then some ([], rest)
    else if c = '\\' then
      match rest with
      | [] => none
      | e :: rest2 =>
        if e = 'u' then
          match rest2 with
          | h1 :: h2 :: h3 :: h4 :: rest3 =>
            match hexDigitVal h1, hexDigitVal h2, hexDigitVal h3, hexDigitVal h4 with
            | some a, some b, some c3, some d =>
              let n := ((a * 16 + b) * 16 + c3) * 16 + d
              if 0xd800 ≤ n ∧ n ≤ 0xdfff then none
              else (parseStringBody rest3).map (fun p => (Char.ofNat n :: p.1, p.2))
            | _, _, _, _ => none
          | _ => none
        else
          match
            (if e = '"' then some '"'
             else if e = '\\' then some '\\'
             else if e = '/' then some '/'
             else if e = 'b' then some '\x08'
             else if e = 'f' then some '\x0c'
             else if e = 'n' then some '\n'
             else if e = 'r' then some '\r'
             else if e = 't' then some '\t'
             else none) with
          | some ch => (parseStringBody rest2).map (fun p => (ch :: p.1, p.2))
          | none => none
    else (parseStringBody rest).map (fun p => (c :: p.1, p.2))

mutual
/-- Parse one JSON value. -/
def parseVal : Nat → List Char → Option (Json × List Char)
  | 0, _ => none
  | fuel + 1, l =>
    match skipWs l with
    | [] => none
    | c :: rest =>
      if c = '{' then
        (parseObjTail fuel rest).map (fun p => (Json.obj p.1, p.2))
      else if c = '[' then
        (parseArrTail fuel rest).map (fun p => (Json.arr p.1, p.2))
      else if c = '"' then
        (parseStringBody rest).map (fun p => (Json.str (String.mk p.1), p.2))
      else if c = 't' then
        match rest with
        | 'r' :: 'u' :: 'e' :: r => some (Json.bool true, r)
        | _ => none
      else if c = 'f' then
        match rest with
        | 'a' :: 'l' :: 's' :: 'e' :: r => some (Json.bool false, r)
        | _ => none
      else if c = 'n' then
        match rest with
        | 'u' :: 'l' :: 'l' :: r => some (Json.null, r)
        | _ => none
      else if c = '-' || c.isDigit then
        let scan := (c :: rest).takeWhile isNumChar
        let r := (c :: rest).dropWhile isNumChar
        if scan.any (fun x => x = '.' || x = 'e' || x = 'E') then
          some (Json.floatLit (String.mk scan), r)
        else
          (parseIntChars scan).map (fun n => (Json.num n, r))
      else none

/-- Parse the elements of a JSON array (after the opening bracket). -/
def parseArrTail : Nat → List Char → Option (JsonArr × List Char)
  | 0, _ => none
  | fuel + 1, l =>
    match skipWs l with
    | ']' :: r => some (.nil, r)
    | l2 => do
      let (v, r) ← parseVal fuel l2
      match skipWs r with
      | ',' :: r2 => do
        let (tl, r3) ← parseArrTail fuel r2
        pure (.cons v tl, r3)
      | ']' :: r2 => pure (.cons v .nil, r2)
      | _ => none

/-- Parse the fields of a JSON object (after the opening brace). -/
def parseObjTail : Nat → List Char → Option (JsonObj × List Char)
  | 0, _ => none
  | fuel + 1, l =>
    match skipWs l with
    | '}' :: r => some (.nil, r)
    | '"' :: r => do
      let (key, r1) ← parseStringBody r
      match skipWs r1 with
      | ':' :: r2 => do
        let (v, r3) ← parseVal fuel r2
        match skipWs r3 with
        | ',' :: r4 => do
          let (tl, r5) ← parseObjTail fuel r4
          pure (.cons (String.mk key) v tl, r5)
        | '}' :: r4 => pure (.cons (String.mk key) v .nil, r4)
        | _ => none
      | _ => none
    | _ => none
end

/-- `json.loads` on a character list: one value, optionally surrounded by
whitespace, and nothing after it. -/
def parseJson (l : List Char) : Option Json :=
  match parseVal (l.length + 1) l with
  | some (v, rest) => if skipWs rest = [] then some v else none
  | none => none

/-! ## Size and printability measures used by the round-trip proof -/

mutual
def Json.size : Json → Nat
  | .arr xs => JsonArr.size xs + 1
  | .obj fs => JsonObj.size fs + 1
  | _ => 1

def JsonArr.size : JsonArr → Nat
  | .nil => 1
  | .cons hd tl => Json.size hd + JsonArr.size tl

def JsonObj.size : JsonObj → Nat
  | .nil => 1
  | .cons _ v tl => Json.size v + JsonObj.size tl
end

def printableChar (c : Char) : Bool := 0x20 ≤ c.toNat && c.toNat ≤ 0x7e

def strPrintable (s : String) : Bool := s.data.all printableChar

/-- Well-formedness of a float literal kept syntactically: the shape
produced by Python's `repr` of a float (starts with a digit or minus,
number characters throughout, and a mark distinguishing it from an int). -/
def floatLitOk : List Char → Bool
  | [] => false
  | c :: cs =>
    (c.isDigit || c = '-') && (c :: cs).all isNumChar &&
      (c :: cs).any (fun x => x = '.' || x = 'e' || x = 'E')

mutual
/-- The spec's "printable" payloads: every string consists of printable
ASCII characters, and float literals are well-formed. -/
def Json.printable : Json → Bool
  | .null => true
  | .bool _ => true
  | .num _ => true
  | .floatLit lit => floatLitOk lit.data
  | .str s => strPrintable s
  | .arr xs => JsonArr.printable xs
  | .obj fs => JsonObj.printable fs

def JsonArr.printable : JsonArr → Bool
  | .nil => true
  | .cons hd tl => Json.printable hd && JsonArr.printable tl

def JsonObj.printable : JsonObj → Bool
  | .nil => true
  | .cons k v tl => strPrintable k && Json.printable v && JsonObj.printable tl
end

/-! ## Round-trip lemmas: numbers -/

theorem digitChar_isDigit (d : Nat) (h : d < 10) : (digitChar d).isDigit = true := by
  interval_cases d <;> decide

theorem decDigitVal_digitChar (d : Nat) (h : d < 10) : decDigitVal (digitChar d) = some d := by
  interval_cases d <;> decide

theorem natToChars_spec (n : Nat) :
    (∃ c cs, natToChars n = c :: cs ∧ c.isDigit = true) ∧
      ∀ c ∈ natToChars n, c.isDigit = true := by
  induction n using Nat.strong_induction_on with
  | _ n ih =>
    rw [natToChars]
    split
    · rename_i h
      refine ⟨⟨digitChar n, [], rfl, digitChar_isDigit n h⟩, ?_⟩
      intro c hc
      simp only [List.mem_singleton] at hc
      exact hc ▸ digitChar_isDigit n h
    · rename_i h
      obtain ⟨⟨c, cs, hcons, hdig⟩, hall⟩ := ih (n / 10) (Nat.div_lt_self (by omega) (by omega))
      constructor
      · exact ⟨c, cs ++ [digitChar (n % 10)], by rw [hcons]; simp, hdig⟩
      · intro x hx
        rw [List.mem_append] at hx
        rcases hx with hx | hx
        · exact hall x hx
        · simp only [List.mem_singleton] at hx
          exact hx ▸ digitChar_isDigit (n % 10) (Nat.mod_lt n (by omega))

theorem parseDigitsAux_append (l1 l2 : List Char) :
    ∀ acc, parseDigitsAux acc (l1 ++ l2) =
      match parseDigitsAux acc l1 with
      | some a => parseDigitsAux a l2
      | none => none := by
  induction l1 with
  | nil => intro acc; simp [parseDigitsAux]
  | cons c rest ih =>
    intro acc
    simp only [List.cons_append, parseDigitsAux]
    cases hc : decDigitVal c with
    | none => simp
    | some d => simpa using ih (acc * 10 + d)

theorem parseDigitsAux_natToChars (n : Nat) :
    ∃ m, 0 < m ∧ ∀ acc, parseDigitsAux acc (natToChars n) = some (acc * m + n) := by
  induction n using Nat.strong_induction_on with
  | _ n ih =>
    rw [natToChars]
    split
    · rename_i h
      refine ⟨10, by omega, fun acc => ?_⟩
      simp [parseDigitsAux, decDigitVal_digitChar n h]
    · rename_i h
      obtain ⟨m, hm, hrec⟩ := ih (n / 10) (Nat.div_lt_self (by omega) (by omega))
      refine ⟨m * 10, by omega, fun acc => ?_⟩
      rw [parseDigitsAux_append, hrec acc]
      simp [parseDigitsAux, decDigitVal_digitChar (n % 10) (Nat.mod_lt n (by omega))]
      have hdm : n / 10 * 10 + n % 10 = n := by omega
      calc (acc * m + n / 10) * 10 + n % 10
          = acc * (m * 10) + (n / 10 * 10 + n % 10) := by ring_nf
        _ = acc * (m * 10) + n := by rw [hdm]

theorem parseDigits_natToChars (n : Nat) : parseDigits (natToChars n) = some n := by
  obtain ⟨⟨c, cs, hcons, _⟩, _⟩ := natToChars_spec n
  obtain ⟨m, _, hrec⟩ := parseDigitsAux_natToChars n
  have h0 := hrec 0
  rw [hcons] at h0 ⊢
  simpa [parseDigits] using h0

theorem natToChars_ne_dash (n : Nat) : ∀ c ∈ natToChars n, c ≠ '-' := by
  intro c hc he
  have := (natToChars_spec n).2 c hc
  rw [he] at this
  simp at this

theorem parseIntChars_intToChars (n : Int) : parseIntChars (intToChars n) = some n := by
  rw [intToChars]
  split
  · rename_i h
    have heq : parseIntChars ('-' :: natToChars n.natAbs) =
        (parseDigits (natToChars n.natAbs)).map (fun m => -(Int.ofNat m)) := rfl
    rw [heq, parseDigits_natToChars, Option.map_some']
    have habs : -(Int.ofNat n.natAbs) = n := by
      simp only [Int.ofNat_eq_natCast]; omega
    rw [habs]
  · rename_i h
    obtain ⟨⟨c, cs, hcons, hdig⟩, _⟩ := natToChars_spec n.natAbs
    have hcd : c ≠ '-' := natToChars_ne_dash n.natAbs c (by rw [hcons]; simp)
    rw [hcons]
    rw [parseIntChars]
    rw [← hcons, parseDigits_natToChars, Option.map_some']
    have habs : Int.ofNat n.natAbs = n := by
      simp only [Int.ofNat_eq_natCast]; omega
    rw [habs]
    intro rest hre
    apply hcd
    simpa using congrArg List.head? hre

/-! ## Round-trip lemmas: strings and token heads -/

theorem parseStringBody_quote (rest : List Char) :
    parseStringBody ('"' :: rest) = some ([], rest) := by
  rw [parseStringBody.eq_def]
  simp

theorem parseStringBody_esc_backslash (t : List Char) :
    parseStringBody ('\\' :: '\\' :: t) =
      (parseStringBody t).map (fun p => ('\\' :: p.1, p.2)) := by
  rw [parseStringBody.eq_def]
  simp

theorem parseStringBody_esc_quote (t : List Char) :
    parseStringBody ('\\' :: '"' :: t) =
      (parseStringBody t).map (fun p => ('"' :: p.1, p.2)) := by
  rw [parseStringBody.eq_def]
  simp

theorem parseStringBody_plain (c : Char) (t : List Char) (h1 : c ≠ '"') (h2 : c ≠ '\\') :
    parseStringBody (c :: t) =
      (parseStringBody t).map (fun p => (c :: p.1, p.2)) := by
  rw [parseStringBody.eq_def]
  simp [h1, h2]

theorem parseStringBody_escape (l : List Char) (h : l.all printableChar = true)
    (rest : List Char) :
    parseStringBody ((l.foldr (fun c acc => escapeChar c ++ acc) []) ++ '"' :: rest) =
      some (l, rest) := by
  induction l with
  | nil => simpa using parseStringBody_quote rest
  | cons c cs ih =>
    rw [List.all_cons, Bool.and_eq_true] at h
    obtain ⟨hc, hcs⟩ := h
    have hrange : 0x20 ≤ c.toNat ∧ c.toNat ≤ 0x7e := by
      simpa [printableChar] using hc
    by_cases h1 : c = '\\'
    · subst h1
      rw [List.foldr_cons, show escapeChar '\\' = ['\\', '\\'] from rfl]
      simp only [List.cons_append, List.nil_append]
      rw [parseStringBody_esc_backslash, ih hcs]
      rfl
    · by_cases h2 : c = '"'
      · subst h2
        rw [List.foldr_cons, show escapeChar '"' = ['\\', '"'] from rfl]
        simp only [List.cons_append, List.nil_append]
        rw [parseStringBody_esc_quote, ih hcs]
        rfl
      · have hesc : escapeChar c = [c] := by
          have e3 : c ≠ '\n' := by
            intro e; rw [e] at hrange; exact absurd hrange.1 (by decide)
          have e4 : c ≠ '\t' := by
            intro e; rw [e] at hrange; exact absurd hrange.1 (by decide)
          have e5 : c ≠ '\r' := by
            intro e; rw [e] at hrange; exact absurd hrange.1 (by decide)
          have e6 : c ≠ '\x08' := by
            intro e; rw [e] at hrange; exact absurd hrange.1 (by decide)
          have e7 : c ≠ '\x0c' := by
            intro e; rw [e] at hrange; exact absurd hrange.1 (by decide)
          rw [escapeChar, if_neg h1, if_neg h2, if_neg e3, if_neg e4, if_neg e5,
            if_neg e6, if_neg e7, if_neg (by omega), if_pos hrange.2]
        rw [List.foldr_cons, hesc]
        simp only [List.cons_append, List.nil_append]
        rw [parseStringBody_plain c _ h2 h1, ih hcs]
        rfl

theorem skipWs_cons_not_ws (c : Char) (l : List Char) (h : isWsJson c = false) :
    skipWs (c :: l) = c :: l := by
  simp [skipWs, List.dropWhile_cons, h]

theorem isDigit_not_ws {c : Char} (h : c.isDigit = true) : isWsJson c = false := by
  have w1 : ¬(c = ' ') := fun e => absurd (e ▸ h) (by decide)
  have w2 : ¬(c = '\t') := fun e => absurd (e ▸ h) (by decide)
  have w3 : ¬(c = '\n') := fun e => absurd (e ▸ h) (by decide)
  have w4 : ¬(c = '\r') := fun e => absurd (e ▸ h) (by decide)
  simp [isWsJson, w1, w2, w3, w4]

theorem digit_head_facts {c : Char} (h : c.isDigit = true) :
    isWsJson c = false ∧ c ≠ ']' ∧ c ≠ '}' := by
  refine ⟨isDigit_not_ws h, ?_, ?_⟩
  · intro e; rw [e] at h; exact absurd h (by decide)
  · intro e; rw [e] at h; exact absurd h (by decide)

/-- The first character of serialized JSON: never whitespace and never a
closing bracket, so the parser's dispatch sees it directly. -/
theorem dumpsChars_head (v : Json) (hp : v.printable = true) :
    ∃ c cs, v.dumpsChars = c :: cs ∧ isWsJson c = false ∧ c ≠ ']' ∧ c ≠ '}' := by
  cases v with
  | null => exact ⟨'n', _, rfl, by decide, by decide, by decide⟩
  | bool b =>
    cases b
    · exact ⟨'f', _, rfl, by decide, by decide, by decide⟩
    · exact ⟨'t', _, rfl, by decide, by decide, by decide⟩
  | num n =>
    simp only [Json.dumpsChars]
    rw [intToChars]
    split
    · exact ⟨'-', _, rfl, by decide, by decide, by decide⟩
    · obtain ⟨⟨c, cs, hcons, hdig⟩, _⟩ := natToChars_spec n.natAbs
      obtain ⟨f1, f2, f3⟩ := digit_head_facts hdig
      exact ⟨c, cs, hcons, f1, f2, f3⟩
  | floatLit lit =>
    have hp2 : floatLitOk lit.data = true := hp
    cases hl : lit.data with
    | nil => rw [hl] at hp2; exact absurd hp2 (by decide)
    | cons c cs =>
      rw [hl, floatLitOk] at hp2
      simp only [Bool.and_eq_true, Bool.or_eq_true, decide_eq_true_eq] at hp2
      obtain ⟨⟨hcd, _⟩, _⟩ := hp2
      rcases hcd with hdig | he
      · obtain ⟨f1, f2, f3⟩ := digit_head_facts hdig
        exact ⟨c, cs, hl, f1, f2, f3⟩
      · exact ⟨c, cs, hl, by rw [he]; decide, by rw [he]; decide, by rw [he]; decide⟩
  | str s => exact ⟨'"', _, rfl, by decide, by decide, by decide⟩
  | arr xs => exact ⟨'[', _, rfl, by decide, by decide, by decide⟩
  | obj fs => exact ⟨'{', _, rfl, by decide, by decide, by decide⟩

/-! ## Size bounds and scanning helpers -/

theorem Json.size_pos (v : Json) : 1 ≤ v.size := by
  cases v <;> simp [Json.size]

theorem JsonArr.arr_size_pos (xs : JsonArr) : 1 ≤ xs.size := by
  cases xs with
  | nil => simp [JsonArr.size]
  | cons hd tl =>
    have := Json.size_pos hd
    simp [JsonArr.size]
    omega

theorem JsonObj.obj_size_pos (fs : JsonObj) : 1 ≤ fs.size := by
  cases fs with
  | nil => simp [JsonObj.size]
  | cons k v tl =>
    have := Json.size_pos v
    simp [JsonObj.size]
    omega

theorem natToChars_ne_nil (n : Nat) : natToChars n ≠ [] := by
  obtain ⟨⟨c, cs, h, _⟩, _⟩ := natToChars_spec n
  simp [h]

theorem intToChars_ne_nil (n : Int) : intToChars n ≠ [] := by
  rw [intToChars]
  split
  · simp
  · exact natToChars_ne_nil _

mutual
theorem Json.size_le_dumps (v : Json) (hp : v.printable = true) :
    v.size ≤ v.dumpsChars.length := by
  cases v with
  | null => simp [Json.size, Json.dumpsChars]
  | bool b => cases b <;> simp [Json.size, Json.dumpsChars]
  | num n =>
    have h1 : 1 ≤ (intToChars n).length :=
      List.length_pos.mpr (intToChars_ne_nil n)
    simpa [Json.size, Json.dumpsChars] using h1
  | floatLit lit =>
    have hp2 : floatLitOk lit.data = true := hp
    cases hl : lit.data with
    | nil => rw [hl] at hp2; exact absurd hp2 (by decide)
    | cons c cs => simp [Json.size, Json.dumpsChars, hl]
  | str s => simp [Json.size, Json.dumpsChars]
  | arr xs =>
    have := JsonArr.arr_size_le_dumps xs hp
    simp only [Json.size, Json.dumpsChars, List.length_cons]
    omega
  | obj fs =>
    have := JsonObj.obj_size_le_dumps fs hp
    simp only [Json.size, Json.dumpsChars, List.length_cons]
    omega

theorem JsonArr.arr_size_le_dumps (xs : JsonArr) (hp : xs.printable = true) :
    xs.size ≤ xs.dumpsChars.length := by
  cases xs with
  | nil => simp [JsonArr.size, JsonArr.dumpsChars]
  | cons hd tl =>
    rw [JsonArr.printable, Bool.and_eq_true] at hp
    obtain ⟨hp1, hp2⟩ := hp
    have h1 := Json.size_le_dumps hd hp1
    cases tl with
    | nil =>
      simp only [JsonArr.size, JsonArr.dumpsChars, List.length_append,
        List.length_cons, List.length_nil, JsonArr.size]
      omega
    | cons h2 t2 =>
      have h3 := JsonArr.arr_size_le_dumps (.cons h2 t2) hp2
      simp only [JsonArr.size, JsonArr.dumpsChars, List.length_append,
        List.length_cons] at h3 ⊢
      omega

theorem JsonObj.obj_size_le_dumps (fs : JsonObj) (hp : fs.printable = true) :
    fs.size ≤ fs.dumpsChars.length := by
  cases fs with
  | nil => simp [JsonObj.size, JsonObj.dumpsChars]
  | cons k v tl =>
    rw [JsonObj.printable, Bool.and_eq_true, Bool.and_eq_true] at hp
    obtain ⟨⟨hpk, hpv⟩, hptl⟩ := hp
    have h1 := Json.size_le_dumps v hpv
    cases tl with
    | nil =>
      simp only [JsonObj.size, JsonObj.dumpsChars, List.length_append,
        List.length_cons, List.length_nil, JsonObj.size]
      omega
    | cons k2 v2 t2 =>
      have h3 := JsonObj.obj_size_le_dumps (.cons k2 v2 t2) hptl
      simp only [JsonObj.size, JsonObj.dumpsChars, List.length_append,
        List.length_cons] at h3 ⊢
      omega
end

/-- The input after the serialized bytes must not start with a character
that could extend a number token (top level: empty; inside a container:
a separator or closing bracket). -/
def restOkB : List Char → Bool
  | [] => true
  | c :: _ => !(isNumChar c)

theorem takeWhile_all_append {p : Char → Bool} {l1 : List Char}
    (h : ∀ c ∈ l1, p c = true) (l2 : List Char) :
    (l1 ++ l2).takeWhile p = l1 ++ l2.takeWhile p ∧
      (l1 ++ l2).dropWhile p = l2.dropWhile p := by
  induction l1 with
  | nil => simp
  | cons c cs ih =>
    have hc : p c = true := h c (by simp)
    have ihr := ih (fun x hx => h x (by simp [hx]))
    simp [List.takeWhile_cons, List.dropWhile_cons, hc, ihr.1, ihr.2]

theorem restOk_scan_stop {l2 : List Char} (h : restOkB l2 = true) :
    l2.takeWhile isNumChar = [] ∧ l2.dropWhile isNumChar = l2 := by
  cases l2 with
  | nil => simp
  | cons c cs =>
    have hc : isNumChar c = false := by
      rw [restOkB] at h
      simpa using h
    simp [List.takeWhile_cons, List.dropWhile_cons, hc]

theorem isDigit_isNumChar {c : Char} (h : c.isDigit = true) : isNumChar c = true := by
  simp [isNumChar, h]

theorem intToChars_numChars (n : Int) : ∀ c ∈ intToChars n, isNumChar c = true := by
  rw [intToChars]
  split
  · intro c hc
    rcases List.mem_cons.mp hc with e | hmem
    · rw [e]; decide
    · exact isDigit_isNumChar ((natToChars_spec n.natAbs).2 c hmem)
  · exact fun c hc => isDigit_isNumChar ((natToChars_spec n.natAbs).2 c hc)

theorem intToChars_no_dotE (n : Int) :
    (intToChars n).any (fun x => x = '.' || x = 'e' || x = 'E') = false := by
  rw [List.any_eq_false]
  intro x hx he
  have hdig : x.isDigit = true ∨ x = '-' := by
    rw [intToChars] at hx
    split at hx
    · rcases List.mem_cons.mp hx with e | hmem
      · exact Or.inr e
      · exact Or.inl ((natToChars_spec n.natAbs).2 x hmem)
    · exact Or.inl ((natToChars_spec n.natAbs).2 x hx)
  simp only [Bool.or_eq_true, decide_eq_true_eq] at he
  have hne : x ≠ '.' ∧ x ≠ 'e' ∧ x ≠ 'E' := by
    rcases hdig with hd | hd
    · refine ⟨?_, ?_, ?_⟩ <;> intro e <;> rw [e] at hd <;> exact absurd hd (by decide)
    · refine ⟨?_, ?_, ?_⟩ <;> intro e <;> rw [hd] at e <;> exact absurd e (by decide)
  rcases he with (e | e) | e
  · exact hne.1 e
  · exact hne.2.1 e
  · exact hne.2.2 e

theorem intToChars_head (n : Int) :
    ∃ c cs, intToChars n = c :: cs ∧ (c = '-' ∨ c.isDigit = true) := by
  rw [intToChars]
  split
  · exact ⟨'-', _, rfl, Or.inl rfl⟩
  · obtain ⟨⟨c, cs, hcons, hdig⟩, _⟩ := natToChars_spec n.natAbs
    exact ⟨c, cs, hcons, Or.inr hdig⟩

theorem stringMk_data (s : String) : String.mk s.data = s := by
  obtain ⟨d⟩ := s
  rfl

/-! ## Printer-parser round trip -/

theorem numHead_facts (c : Char) (h : c = '-' ∨ c.isDigit = true) :
    ¬(c = '{') ∧ ¬(c = '[') ∧ ¬(c = '"') ∧ ¬(c = 't') ∧ ¬(c = 'f') ∧ ¬(c = 'n') ∧
      (decide (c = '-') || c.isDigit) = true ∧ isWsJson c = false := by
  have hws : isWsJson c = false := by
    rcases h with e | e
    · rw [e]; decide
    · exact isDigit_not_ws e
  refine ⟨?_, ?_, ?_, ?_, ?_, ?_, ?_, hws⟩
  · rcases h with e | e
    · rw [e]; decide
    · intro hx; rw [hx] at e; exact absurd e (by decide)
  · rcases h with e | e
    · rw [e]; decide
    · intro hx; rw [hx] at e; exact absurd e (by decide)
  · rcases h with e | e
    · rw [e]; decide
    · intro hx; rw [hx] at e; exact absurd e (by decide)
  · rcases h with e | e
    · rw [e]; decide
    · intro hx; rw [hx] at e; exact absurd e (by decide)
  · rcases h with e | e
    · rw [e]; decide
    · intro hx; rw [hx] at e; exact absurd e (by decide)
  · rcases h with e | e
    · rw [e]; decide
    · intro hx; rw [hx] at e; exact absurd e (by decide)
  · rcases h with e | e <;> simp [e]

mutual
theorem parseVal_dumps (v : Json) (hp : v.printable = true) (fuel : Nat) (rest : List Char)
    (hf : v.size ≤ fuel) (hr : restOkB rest = true) :
    parseVal fuel (v.dumpsChars ++ rest) = some (v, rest) := by
  cases fuel with
  | zero => exact absurd hf (by have := Json.size_pos v; omega)
  | succ f =>
    cases v with
    | null => rfl
    | bool b => cases b <;> rfl
    | num n =>
      obtain ⟨c, cs, hcons, hdisp⟩ := intToChars_head n
      obtain ⟨hne1, hne2, hne3, hne4, hne5, hne6, hdispb, hws⟩ := numHead_facts c hdisp
      rw [parseVal]
      simp only [Json.dumpsChars]
      rw [hcons, List.cons_append, skipWs_cons_not_ws c _ hws]
      simp only [if_neg hne1, if_neg hne2, if_neg hne3, if_neg hne4, if_neg hne5,
        if_neg hne6, if_pos hdispb]
      have hre : c :: (cs ++ rest) = intToChars n ++ rest := by
        rw [hcons, List.cons_append]
      rw [hre]
      have hscan := takeWhile_all_append (intToChars_numChars n) rest
      have hstop := restOk_scan_stop hr
      rw [hscan.1, hscan.2, hstop.1, hstop.2, List.append_nil]
      rw [if_neg (by rw [intToChars_no_dotE n]; exact Bool.false_ne_true)]
      rw [parseIntChars_intToChars]
      rfl
    | floatLit lit =>
      have hp2 : floatLitOk lit.data = true := hp
      cases hl : lit.data with
      | nil => rw [hl] at hp2; exact absurd hp2 (by decide)
      | cons c cs =>
        rw [hl, floatLitOk, Bool.and_eq_true, Bool.and_eq_true] at hp2
        obtain ⟨⟨hdispB, hallB⟩, hanyB⟩ := hp2
        have hdisp : c = '-' ∨ c.isDigit = true := by
          simp only [Bool.or_eq_true, decide_eq_true_eq] at hdispB
          rcases hdispB with e | e
          · exact Or.inr e
          · exact Or.inl e
        obtain ⟨hne1, hne2, hne3, hne4, hne5, hne6, hdispb, hws⟩ := numHead_facts c hdisp
        rw [parseVal]
        simp only [Json.dumpsChars]
        rw [hl, List.cons_append, skipWs_cons_not_ws c _ hws]
        simp only [if_neg hne1, if_neg hne2, if_neg hne3, if_neg hne4, if_neg hne5,
          if_neg hne6, if_pos hdispb]
        have hre : c :: (cs ++ rest) = lit.data ++ rest := by
          rw [hl, List.cons_append]
        rw [hre]
        have hallmem : ∀ x ∈ lit.data, isNumChar x = true := by
          rw [hl]
          exact fun x hx => List.all_eq_true.mp (by rw [List.all_cons] at hallB ⊢; exact hallB) x hx
        have hscan := takeWhile_all_append hallmem rest
        have hstop := restOk_scan_stop hr
        rw [hscan.1, hscan.2, hstop.1, hstop.2, List.append_nil]
        rw [if_pos (by rw [hl]; exact hanyB)]
    | str s =>
      rw [parseVal]
      simp only [Json.dumpsChars, List.cons_append, List.append_assoc,
        List.singleton_append]
      rw [skipWs_cons_not_ws '"' _ (by decide)]
      have hesc := parseStringBody_escape s.data hp rest
      simp only [escapeString]
      simp [hesc, stringMk_data]
    | arr xs =>
      rw [parseVal]
      simp only [Json.dumpsChars, List.cons_append]
      rw [skipWs_cons_not_ws '[' _ (by decide)]
      have ih := parseArrTail_dumps xs hp f rest (by
        have h2 : (Json.arr xs).size = xs.size + 1 := by rw [Json.size]
        omega) hr
      simp [ih]
    | obj fs =>
      rw [parseVal]
      simp only [Json.dumpsChars, List.cons_append]
      rw [skipWs_cons_not_ws '{' _ (by decide)]
      have ih := parseObjTail_dumps fs hp f rest (by
        have h2 : (Json.obj fs).size = fs.size + 1 := by rw [Json.size]
        omega) hr
      simp [ih]

theorem parseArrTail_dumps (xs : JsonArr) (hp : xs.printable = true) (fuel : Nat)
    (rest : List Char) (hf : xs.size ≤ fuel) (hr : restOkB rest = true) :
    parseArrTail fuel (xs.dumpsChars ++ rest) = some (xs, rest) := by
  cases fuel with
  | zero => exact absurd hf (by have := JsonArr.arr_size_pos xs; omega)
  | succ f =>
    cases xs with
    | nil =>
      rfl
    | cons hd tl =>
      rw [JsonArr.printable, Bool.and_eq_true] at hp
      obtain ⟨hp1, hp2⟩ := hp
      obtain ⟨c, cs, hcons, hws, hne1, hne2⟩ := dumpsChars_head hd hp1
      cases tl with
      | nil =>
        have hshape : JsonArr.dumpsChars (.cons hd .nil) ++ rest =
            c :: (cs ++ (']' :: rest)) := by
          rw [JsonArr.dumpsChars, hcons]
          simp
        rw [parseArrTail, hshape, skipWs_cons_not_ws c _ hws]
        split
        · rename_i x r heq
          exact absurd (by simpa using congrArg List.head? heq) hne1
        · have hre : c :: (cs ++ ']' :: rest) = hd.dumpsChars ++ (']' :: rest) := by
            rw [hcons, List.cons_append]
          have hsz : Json.size hd ≤ f := by
            have h2 : (JsonArr.cons hd JsonArr.nil).size = hd.size + 1 := by
              rw [JsonArr.size, JsonArr.size]
            omega
          rw [hre, parseVal_dumps hd hp1 f (']' :: rest) hsz (by rfl)]
          simp [skipWs, List.dropWhile_cons, isWsJson]
      | cons h2 t2 =>
        have hshape : JsonArr.dumpsChars (.cons hd (.cons h2 t2)) ++ rest =
            c :: (cs ++ (',' :: (JsonArr.dumpsChars (.cons h2 t2) ++ rest))) := by
          rw [JsonArr.dumpsChars, hcons]
          simp
        rw [parseArrTail, hshape, skipWs_cons_not_ws c _ hws]
        split
        · rename_i x r heq
          exact absurd (by simpa using congrArg List.head? heq) hne1
        · have hre : c :: (cs ++ ',' :: (JsonArr.dumpsChars (.cons h2 t2) ++ rest)) =
              hd.dumpsChars ++ (',' :: (JsonArr.dumpsChars (.cons h2 t2) ++ rest)) := by
            rw [hcons, List.cons_append]
          have e1 : (JsonArr.cons hd (JsonArr.cons h2 t2)).size =
              hd.size + (JsonArr.cons h2 t2).size := by rw [JsonArr.size]
          have e2 := Json.size_pos hd
          have e3 := JsonArr.arr_size_pos (JsonArr.cons h2 t2)
          have htl := parseArrTail_dumps (.cons h2 t2) hp2 f rest (by omega) hr
          rw [hre, parseVal_dumps hd hp1 f _ (by omega) (by rfl)]
          simp [skipWs, List.dropWhile_cons, isWsJson, htl]

theorem parseObjTail_dumps (fs : JsonObj) (hp : fs.printable = true) (fuel : Nat)
    (rest : List Char) (hf : fs.size ≤ fuel) (hr : restOkB rest = true) :
    parseObjTail fuel (fs.dumpsChars ++ rest) = some (fs, rest) := by
  cases fuel with
  | zero => exact absurd hf (by have := JsonObj.obj_size_pos fs; omega)
  | succ f =>
    cases fs with
    | nil => rfl
    | cons k v tl =>
      rw [JsonObj.printable, Bool.and_eq_true, Bool.and_eq_true] at hp
      obtain ⟨⟨hpk, hpv⟩, hptl⟩ := hp
      cases tl with
      | nil =>
        have hshape : JsonObj.dumpsChars (.cons k v .nil) ++ rest =
            '"' :: ((k.data.foldr (fun c acc => escapeChar c ++ acc) []) ++
              '"' :: (':' :: (v.dumpsChars ++ ('}' :: rest)))) := by
          rw [JsonObj.dumpsChars]
          simp [escapeString]
        have hesc := parseStringBody_escape k.data hpk
          (':' :: (v.dumpsChars ++ ('}' :: rest)))
        have hsz : Json.size v ≤ f := by
          have h2 : (JsonObj.cons k v JsonObj.nil).size = v.size + 1 := by
            rw [JsonObj.size, JsonObj.size]
          omega
        have hval := parseVal_dumps v hpv f ('}' :: rest) hsz (by rfl)
        rw [parseObjTail, hshape, skipWs_cons_not_ws '"' _ (by decide)]
        simp [hesc, hval, skipWs, List.dropWhile_cons, isWsJson]
      | cons k2 v2 t2 =>
        have hshape : JsonObj.dumpsChars (.cons k v (.cons k2 v2 t2)) ++ rest =
            '"' :: ((k.data.foldr (fun c acc => escapeChar c ++ acc) []) ++
              '"' :: (':' :: (v.dumpsChars ++
                (',' :: (JsonObj.dumpsChars (.cons k2 v2 t2) ++ rest))))) := by
          rw [JsonObj.dumpsChars]
          simp [escapeString]
        have hesc := parseStringBody_escape k.data hpk
          (':' :: (v.dumpsChars ++ (',' :: (JsonObj.dumpsChars (.cons k2 v2 t2) ++ rest))))
        have e1 : (JsonObj.cons k v (JsonObj.cons k2 v2 t2)).size =
            v.size + (JsonObj.cons k2 v2 t2).size := by rw [JsonObj.size]
        have e2 := Json.size_pos v
        have e3 := JsonObj.obj_size_pos (JsonObj.cons k2 v2 t2)
        have hval := parseVal_dumps v hpv f
          (',' :: (JsonObj.dumpsChars (.cons k2 v2 t2) ++ rest)) (by omega) (by rfl)
        have htl := parseObjTail_dumps (.cons k2 v2 t2) hptl f rest (by omega) hr
        rw [parseObjTail, hshape, skipWs_cons_not_ws '"' _ (by decide)]
        simp [hesc, hval, htl, skipWs, List.dropWhile_cons, isWsJson]
end

theorem parseJson_dumps (v : Json) (hp : v.printable = true) :
    parseJson v.dumpsChars = some v := by
  rw [parseJson]
  have hsz := Json.size_le_dumps v hp
  have h := parseVal_dumps v hp (v.dumpsChars.length + 1) [] (by omega) (by rfl)
  rw [List.append_nil] at h
  rw [h]
  simp [skipWs]

/-! ## Last characters, newlines, stripping -/

theorem natToChars_last (n : Nat) :
    ∃ t d, d < 10 ∧ natToChars n = t ++ [digitChar d] := by
  rw [natToChars]
  split
  · rename_i h
    exact ⟨[], n, h, rfl⟩
  · exact ⟨natToChars (n / 10), n % 10, Nat.mod_lt n (by omega), rfl⟩

theorem digitChar_not_pyspace (d : Nat) (h : d < 10) : isPySpace (digitChar d) = false := by
  interval_cases d <;> decide

theorem isNumChar_not_pyspace {c : Char} (h : isNumChar c = true) : isPySpace c = false := by
  cases hps : isPySpace c with
  | false => rfl
  | true =>
    exfalso
    have hd : c = ' ' ∨ c = '\t' ∨ c = '\n' ∨ c = '\r' ∨ c = '\x0b' ∨ c = '\x0c' := by
      simpa [isPySpace, or_assoc] using hps
    rcases hd with e | e | e | e | e | e <;> rw [e] at h <;> exact absurd h (by decide)

/-- What a serialized JSON value ends with: never whitespace. -/
def lastNotWs (l : List Char) : Prop :=
  ∃ t c, l = t ++ [c] ∧ isPySpace c = false

theorem arrDumps_last (xs : JsonArr) : ∃ t, xs.dumpsChars = t ++ [']'] := by
  cases xs with
  | nil => exact ⟨[], rfl⟩
  | cons hd tl =>
    cases tl with
    | nil => exact ⟨Json.dumpsChars hd, by rw [JsonArr.dumpsChars]⟩
    | cons h2 t2 =>
      obtain ⟨t, ht⟩ := arrDumps_last (.cons h2 t2)
      refine ⟨Json.dumpsChars hd ++ ',' :: t, ?_⟩
      rw [JsonArr.dumpsChars, ht]
      simp

theorem objDumps_last (fs : JsonObj) : ∃ t, fs.dumpsChars = t ++ ['}'] := by
  cases fs with
  | nil => exact ⟨[], rfl⟩
  | cons k v tl =>
    cases tl with
    | nil =>
      refine ⟨'"' :: escapeString k ++ '"' :: ':' :: Json.dumpsChars v, ?_⟩
      rw [JsonObj.dumpsChars]
    | cons k2 v2 t2 =>
      obtain ⟨t, ht⟩ := objDumps_last (.cons k2 v2 t2)
      refine ⟨'"' :: escapeString k ++ '"' :: ':' :: Json.dumpsChars v ++ ',' :: t, ?_⟩
      rw [JsonObj.dumpsChars, ht]
      simp

theorem dumpsChars_last (v : Json) (hp : v.printable = true) : lastNotWs v.dumpsChars := by
  cases v with
  | null => exact ⟨['n', 'u', 'l'], 'l', rfl, by decide⟩
  | bool b =>
    cases b
    · exact ⟨['f', 'a', 'l', 's'], 'e', rfl, by decide⟩
    · exact ⟨['t', 'r', 'u'], 'e', rfl, by decide⟩
  | num n =>
    obtain ⟨t, d, hd, ht⟩ := natToChars_last n.natAbs
    have hns := digitChar_not_pyspace d hd
    simp only [Json.dumpsChars]
    rw [intToChars]
    split
    · exact ⟨'-' :: t, digitChar d, by rw [ht]; simp, hns⟩
    · exact ⟨t, digitChar d, ht, hns⟩
  | floatLit lit =>
    have hp2 : floatLitOk lit.data = true := hp
    cases hl : lit.data with
    | nil => rw [hl] at hp2; exact absurd hp2 (by decide)
    | cons c cs =>
      rw [hl, floatLitOk, Bool.and_eq_true, Bool.and_eq_true] at hp2
      obtain ⟨⟨_, hallB⟩, _⟩ := hp2
      have hne : (c :: cs) ≠ ([] : List Char) := by simp
      have hlast : (c :: cs).getLast hne ∈ (c :: cs) := List.getLast_mem hne
      have hnum : isNumChar ((c :: cs).getLast hne) = true :=
        List.all_eq_true.mp hallB _ hlast
      refine ⟨(c :: cs).dropLast, (c :: cs).getLast hne, ?_, isNumChar_not_pyspace hnum⟩
      show Json.dumpsChars (.floatLit lit) = _
      rw [Json.dumpsChars, hl]
      exact (List.dropLast_append_getLast hne).symm
  | str s =>
    refine ⟨'"' :: escapeString s, '"', ?_, by decide⟩
    rw [Json.dumpsChars]
  | arr xs =>
    obtain ⟨t, ht⟩ := arrDumps_last xs
    exact ⟨'[' :: t, ']', by rw [Json.dumpsChars, ht]; simp, by decide⟩
  | obj fs =>
    obtain ⟨t, ht⟩ := objDumps_last fs
    exact ⟨'{' :: t, '}', by rw [Json.dumpsChars, ht]; simp, by decide⟩

theorem escapeList_no_newline :
    ∀ (l : List Char), l.all printableChar = true →
      ∀ c ∈ l.foldr (fun c acc => escapeChar c ++ acc) [], c ≠ '\n' := by
  intro l
  induction l with
  | nil => intro _; simp
  | cons c cs ih =>
    intro hp
    rw [List.all_cons, Bool.and_eq_true] at hp
    obtain ⟨hc, hcs⟩ := hp
    have hrange : 0x20 ≤ c.toNat ∧ c.toNat ≤ 0x7e := by
      simpa [printableChar] using hc
    intro x hx
    rw [List.foldr_cons, List.mem_append] at hx
    rcases hx with hx | hx
    · by_cases h1 : c = '\\'
      · rw [h1] at hx
        intro e
        rw [e] at hx
        exact absurd hx (by decide)
      · by_cases h2 : c = '"'
        · rw [h2] at hx
          intro e
          rw [e] at hx
          exact absurd hx (by decide)
        · have hesc : escapeChar c = [c] := by
            have e3 : c ≠ '\n' := by
              intro e; rw [e] at hrange; exact absurd hrange.1 (by decide)
            have e4 : c ≠ '\t' := by
              intro e; rw [e] at hrange; exact absurd hrange.1 (by decide)
            have e5 : c ≠ '\r' := by
              intro e; rw [e] at hrange; exact absurd hrange.1 (by decide)
            have e6 : c ≠ '\x08' := by
              intro e; rw [e] at hrange; exact absurd hrange.1 (by decide)
            have e7 : c ≠ '\x0c' := by
              intro e; rw [e] at hrange; exact absurd hrange.1 (by decide)
            rw [escapeChar, if_neg h1, if_neg h2, if_neg e3, if_neg e4, if_neg e5,
              if_neg e6, if_neg e7, if_neg (by omega), if_pos hrange.2]
          rw [hesc] at hx
          have hxc : x = c := by simpa using hx
          rw [hxc]
          intro e
          rw [e] at hrange
          exact absurd hrange.1 (by decide)
    · exact ih hcs x hx

theorem escapeString_no_newline (s : String) (hp : strPrintable s = true) :
    ∀ c ∈ escapeString s, c ≠ '\n' :=
  escapeList_no_newline s.data hp

mutual
theorem Json.dumps_no_newline (v : Json) (hp : v.printable = true) :
    ∀ c ∈ v.dumpsChars, c ≠ '\n' := by
  cases v with
  | null =>
    intro c hc e
    rw [e, Json.dumpsChars] at hc
    exact absurd hc (by decide)
  | bool b =>
    cases b <;> (intro c hc e; rw [e, Json.dumpsChars] at hc; exact absurd hc (by decide))
  | num n =>
    intro c hc e
    rw [Json.dumpsChars] at hc
    have hnum := intToChars_numChars n c hc
    rw [e] at hnum
    exact absurd hnum (by decide)
  | floatLit lit =>
    have hp2 : floatLitOk lit.data = true := hp
    intro c hc e
    rw [Json.dumpsChars] at hc
    cases hl : lit.data with
    | nil => rw [hl] at hp2; exact absurd hp2 (by decide)
    | cons c0 cs0 =>
      rw [hl] at hc
      rw [hl, floatLitOk, Bool.and_eq_true, Bool.and_eq_true] at hp2
      obtain ⟨⟨_, hallB⟩, _⟩ := hp2
      have hnum : isNumChar c = true := List.all_eq_true.mp hallB _ hc
      rw [e] at hnum
      exact absurd hnum (by decide)
  | str s =>
    intro c hc e
    subst e
    rw [Json.dumpsChars] at hc
    simp at hc
    exact escapeString_no_newline s hp _ hc rfl
  | arr xs =>
    intro c hc e
    subst e
    rw [Json.dumpsChars] at hc
    simp at hc
    exact JsonArr.arr_dumps_no_newline xs hp _ hc rfl
  | obj fs =>
    intro c hc e
    subst e
    rw [Json.dumpsChars] at hc
    simp at hc
    exact JsonObj.obj_dumps_no_newline fs hp _ hc rfl

theorem JsonArr.arr_dumps_no_newline (xs : JsonArr) (hp : xs.printable = true) :
    ∀ c ∈ xs.dumpsChars, c ≠ '\n' := by
  cases xs with
  | nil =>
    intro c hc e
    rw [e, JsonArr.dumpsChars] at hc
    exact absurd hc (by decide)
  | cons hd tl =>
    rw [JsonArr.printable, Bool.and_eq_true] at hp
    obtain ⟨hp1, hp2⟩ := hp
    intro c hc e
    subst e
    cases tl with
    | nil =>
      rw [JsonArr.dumpsChars] at hc
      simp at hc
      exact Json.dumps_no_newline hd hp1 _ hc rfl
    | cons h2 t2 =>
      rw [JsonArr.dumpsChars] at hc
      simp at hc
      rcases hc with hc | hc
      · exact Json.dumps_no_newline hd hp1 _ hc rfl
      · exact JsonArr.arr_dumps_no_newline (.cons h2 t2) hp2 _ hc rfl

theorem JsonObj.obj_dumps_no_newline (fs : JsonObj) (hp : fs.printable = true) :
    ∀ c ∈ fs.dumpsChars, c ≠ '\n' := by
  cases fs with
  | nil =>
    intro c hc e
    rw [e, JsonObj.dumpsChars] at hc
    exact absurd hc (by decide)
  | cons k v tl =>
    rw [JsonObj.printable, Bool.and_eq_true, Bool.and_eq_true] at hp
    obtain ⟨⟨hpk, hpv⟩, hptl⟩ := hp
    intro c hc e
    subst e
    cases tl with
    | nil =>
      rw [JsonObj.dumpsChars] at hc
      simp at hc
      rcases hc with hc | hc
      · exact escapeString_no_newline k hpk _ hc rfl
      · exact Json.dumps_no_newline v hpv _ hc rfl
    | cons k2 v2 t2 =>
      rw [JsonObj.dumpsChars] at hc
      simp at hc
      rcases hc with hc | hc | hc
      · exact escapeString_no_newline k hpk _ hc rfl
      · exact Json.dumps_no_newline v hpv _ hc rfl
      · exact JsonObj.obj_dumps_no_newline (.cons k2 v2 t2) hptl _ hc rfl
end

theorem stripTrailingWs_of_lastNotWs {l : List Char} (h : lastNotWs l) :
    stripTrailingWs l = l := by
  obtain ⟨t, c, rfl, hc⟩ := h
  rw [stripTrailingWs, List.reverse_append]
  simp [List.dropWhile_cons, hc]

theorem splitOnceNl_no_nl (l : List Char) (h : ∀ c ∈ l, c ≠ '\n') :
    splitOnceNl l = (l, none) := by
  induction l with
  | nil => rfl
  | cons c cs ih =>
    rw [splitOnceNl]
    have hne : ¬(c = '\n') := fun e => h c (by simp) e
    rw [if_neg hne, ih (fun x hx => h x (by simp [hx]))]

theorem splitOnceNl_append (a r : List Char) (h : ∀ c ∈ a, c ≠ '\n') :
    splitOnceNl (a ++ '\n' :: r) = (a, some r) := by
  induction a with
  | nil => simp [splitOnceNl]
  | cons c cs ih =>
    rw [List.cons_append, splitOnceNl]
    have hne : ¬(c = '\n') := fun e => h c (by simp) e
    rw [if_neg hne, ih (fun x hx => h x (by simp [hx]))]

theorem pyStrip_wire (a b : List Char) (c0 : Char) (t0 : List Char)
    (hhead : a = c0 :: t0) (hc0 : isPySpace c0 = false) (hlast : lastNotWs a) :
    pyStrip (a ++ '\n' :: (b ++ ['\n'])) =
      a ++ (if stripTrailingWs b = [] then [] else '\n' :: stripTrailingWs b) := by
  rw [pyStrip]
  have h1 : stripLeadingWs (a ++ '\n' :: (b ++ ['\n'])) = a ++ '\n' :: (b ++ ['\n']) := by
    rw [hhead, stripLeadingWs, List.cons_append, List.dropWhile_cons]
    simp [hc0]
  rw [h1]
  obtain ⟨t, cl, hae, hcl⟩ := hlast
  rw [stripTrailingWs]
  have h2 : (a ++ '\n' :: (b ++ ['\n'])).reverse =
      '\n' :: (b.reverse ++ ('\n' :: a.reverse)) := by
    simp
  rw [h2, List.dropWhile_cons]
  rw [if_pos (by decide)]
  rw [List.dropWhile_append]
  by_cases hD : (b.reverse.dropWhile isPySpace).isEmpty = true
  · rw [if_pos hD]
    have hnil : stripTrailingWs b = [] := by
      rw [stripTrailingWs]
      rw [List.isEmpty_iff] at hD
      rw [hD]
      rfl
    rw [hnil, if_pos rfl, List.dropWhile_cons, if_pos (by decide)]
    have hrev : a.reverse = cl :: t.reverse := by
      rw [hae]
      simp
    rw [hrev, List.dropWhile_cons, if_neg (by simp [hcl])]
    rw [← hrev]
    simp
  · rw [if_neg hD]
    have hne : stripTrailingWs b ≠ [] := by
      rw [stripTrailingWs]
      rw [List.isEmpty_iff] at hD
      simpa using hD
    rw [if_neg hne]
    rw [List.reverse_append, List.reverse_cons, List.reverse_reverse]
    rw [stripTrailingWs]
    simp

/-! ## Wire protocol codec (src/claude_notify/hook/protocol.py) -/

def PROTOCOL_VERSION : Int := 1

/-- The envelope dict built by `encode_hook_message`, in insertion order. -/
def envelopeObj (timestamp : Nat) (env_data : JsonObj) (claude_size : Nat) : JsonObj :=
  .cons "version" (.num PROTOCOL_VERSION)
    (.cons "timestamp" (.num (Int.ofNat timestamp))
      (.cons "env" (.obj env_data)
        (.cons "claude_size" (.num (Int.ofNat claude_size)) .nil)))

/-- `encode_hook_message(claude_data, env_data)`; the wall-clock value
`time.time()` is passed explicitly as `now`. -/
def encode_hook_message (claude_data : Json) (env_data : JsonObj) (now : Nat) : String :=
  let claude_blob := Json.dumps claude_data
  let claude_size := claude_blob.utf8ByteSize
  let custom_blob := Json.dumps (.obj (envelopeObj now env_data claude_size))
  custom_blob ++ "\n" ++ claude_blob ++ "\n"

/-- Decoded hook message (dataclass `HookMessage`).  The envelope fields are
kept as JSON values, as Python stores whatever the envelope dict held. -/
structure HookMessage where
  version : Json
  timestamp : Json
  env : Json
  claude_size : Json
  claude_data : Option Json
  claude_raw : String
  deriving DecidableEq

/-- The `claude_data` field computed by `decode_hook_message`: `None` when
the payload is empty, fails to parse, or parses to JSON `null` (Python
cannot tell a parsed `None` from the initial `None`). -/
def claudeDataOf (claude_raw : String) : Option Json :=
  if claude_raw.data = [] then none
  else
    match parseJson claude_raw.data with
    | some .null => none
    | r => r

/-- `decode_hook_message(data)`: `none` models an exception (malformed
envelope, envelope not a dict, or a required envelope key missing). -/
def decode_hook_message (data : String) : Option HookMessage :=
  let t := pyStrip data.data
  let parts := splitOnceNl t
  match parseJson parts.1 with
  | some (.obj custom) =>
    let claude_raw : String := String.mk (parts.2.getD [])
    match objGet custom "version", objGet custom "timestamp",
        objGet custom "claude_size" with
    | some v, some ts, some cs =>
      some { version := v, timestamp := ts,
             env := (objGet custom "env").getD (.obj .nil),
             claude_size := cs,
             claude_data := claudeDataOf claude_raw,
             claude_raw := claude_raw }
    | _, _, _ => none
  | _ => none

/-- Decoding any wire text whose first line is a serialized envelope dict:
the envelope round-trips and the raw payload is the payload text with
trailing whitespace stripped. -/
theorem decode_wire_general (fs : JsonObj) (P : List Char)
    (hp : (Json.obj fs).printable = true) (jv jt jn : Json)
    (hv : objGet fs "version" = some jv) (ht : objGet fs "timestamp" = some jt)
    (hn : objGet fs "claude_size" = some jn) :
    decode_hook_message (String.mk ((Json.obj fs).dumpsChars ++ '\n' :: (P ++ ['\n']))) =
      some { version := jv, timestamp := jt,
             env := (objGet fs "env").getD (.obj .nil),
             claude_size := jn,
             claude_data := claudeDataOf (String.mk (stripTrailingWs P)),
             claude_raw := String.mk (stripTrailingWs P) } := by
  have hhead : (Json.obj fs).dumpsChars = '{' :: fs.dumpsChars := by
    rw [Json.dumpsChars]
  have hlast := dumpsChars_last (Json.obj fs) hp
  have hnonl := Json.dumps_no_newline (Json.obj fs) hp
  rw [decode_hook_message]
  have hdata : (String.mk ((Json.obj fs).dumpsChars ++ '\n' :: (P ++ ['\n']))).data =
      (Json.obj fs).dumpsChars ++ '\n' :: (P ++ ['\n']) := rfl
  rw [hdata]
  rw [pyStrip_wire _ P '{' fs.dumpsChars hhead (by decide) hlast]
  by_cases hD : stripTrailingWs P = []
  · rw [hD, if_pos rfl, List.append_nil]
    rw [splitOnceNl_no_nl _ hnonl]
    rw [parseJson_dumps (Json.obj fs) hp]
    dsimp only
    rw [hv, ht, hn]
    rfl
  · rw [if_neg hD]
    rw [splitOnceNl_append _ _ hnonl]
    rw [parseJson_dumps (Json.obj fs) hp]
    dsimp only
    rw [hv, ht, hn]
    rfl

theorem envelopeObj_printable (now : Nat) (e : JsonObj) (cs : Nat)
    (he : (Json.obj e).printable = true) :
    (Json.obj (envelopeObj now e cs)).printable = true := by
  have he2 : JsonObj.printable e = true := he
  simp [envelopeObj, Json.printable, JsonObj.printable, strPrintable, printableChar, he2]

theorem encode_data (cdata : Json) (e : JsonObj) (now : Nat) :
    (encode_hook_message cdata e now).data =
      (Json.obj (envelopeObj now e (Json.dumps cdata).utf8ByteSize)).dumpsChars ++
        '\n' :: ((Json.dumps cdata).data ++ ['\n']) := by
  rw [encode_hook_message]
  simp only [String.data_append]
  have h1 : (Json.dumps (.obj (envelopeObj now e (Json.dumps cdata).utf8ByteSize))).data =
      (Json.obj (envelopeObj now e (Json.dumps cdata).utf8ByteSize)).dumpsChars := rfl
  rw [h1]
  simp

/-! ## SHA-256 (models `hashlib.sha256`) -/

def sha256K : List Nat := [
  1116352408, 1899447441, 3049323471, 3921009573, 961987163, 1508970993,
  2453635748, 2870763221, 3624381080, 310598401, 607225278, 1426881987,
  1925078388, 2162078206, 2614888103, 3248222580, 3835390401, 4022224774,
  264347078, 604807628, 770255983, 1249150122, 1555081692, 1996064986,
  2554220882, 2821834349, 2952996808, 3210313671, 3336571891, 3584528711,
  113926993, 338241895, 666307205, 773529912, 1294757372, 1396182291,
  1695183700, 1986661051, 2177026350, 2456956037, 2730485921, 2820302411,
  3259730800, 3345764771, 3516065817, 3600352804, 4094571909, 275423344,
  430227734, 506948616, 659060556, 883997877, 958139571, 1322822218,
  1537002063, 1747873779, 1955562222, 2024104815, 2227730452, 2361852424,
  2428436474, 2756734187, 3204031479, 3329325298]

def sha256H0 : List Nat :=
  [1779033703, 3144134277, 1013904242, 2773480762,
   1359893119, 2600822924, 528734635, 1541459225]

def rotr32 (n x : Nat) : Nat := ((x >>> n) ||| (x <<< (32 - n))) % 4294967296

def natToBytesBE (n : Nat) : Nat → List Nat
  | 0 => []
  | w + 1 => natToBytesBE (n / 256) w ++ [n % 256]

def bytesToWords : List Nat → List Nat
  | b1 :: b2 :: b3 :: b4 :: rest =>
    (((b1 * 256 + b2) * 256 + b3) * 256 + b4) :: bytesToWords rest
  | _ => []

/-- SHA-256 padding: a 0x80 byte, zeros to 56 mod 64, then the bit length. -/
def sha256pad (msg : List Nat) : List Nat :=
  let k := (119 - msg.length % 64) % 64
  msg ++ 0x80 :: (List.replicate k 0 ++ natToBytesBE (msg.length * 8) 8)

/-- Message-schedule extension from 16 to 64 words. -/
def sha256extend (w16 : List Nat) : List Nat :=
  (List.range 48).foldl
    (fun w _ =>
      let j := w.length
      let x15 := w.getD (j - 15) 0
      let x2 := w.getD (j - 2) 0
      let s0 := (rotr32 7 x15) ^^^ (rotr32 18 x15) ^^^ (x15 >>> 3)
      let s1 := (rotr32 17 x2) ^^^ (rotr32 19 x2) ^^^ (x2 >>> 10)
      w ++ [(w.getD (j - 16) 0 + s0 + w.getD (j - 7) 0 + s1) % 4294967296])
    w16

def sha256compress (h : List Nat) (w16 : List Nat) : List Nat :=
  let w := sha256extend w16
  let st0 := (h.getD 0 0, h.getD 1 0, h.getD 2 0, h.getD 3 0,
              h.getD 4 0, h.getD 5 0, h.getD 6 0, h.getD 7 0)
  let st := (List.zip sha256K w).foldl
    (fun st kw =>
      let (a, b, c, d, e, f, g, hh) := st
      let s1 := (rotr32 6 e) ^^^ (rotr32 11 e) ^^^ (rotr32 25 e)
      let ch := (e &&& f) ^^^ ((4294967295 - e) &&& g)
      let t1 := (hh + s1 + ch + kw.1 + kw.2) % 4294967296
      let s0 := (rotr32 2 a) ^^^ (rotr32 13 a) ^^^ (rotr32 22 a)
      let maj := (a &&& b) ^^^ (a &&& c) ^^^ (b &&& c)
      let t2 := (s0 + maj) % 4294967296
      ((t1 + t2) % 4294967296, a, b, c, (d + t1) % 4294967296, e, f, g))
    st0
  match st with
  | (a, b, c, d, e, f, g, hh) =>
    [(h.getD 0 0 + a) % 4294967296, (h.getD 1 0 + b) % 4294967296,
     (h.getD 2 0 + c) % 4294967296, (h.getD 3 0 + d) % 4294967296,
     (h.getD 4 0 + e) % 4294967296, (h.getD 5 0 + f) % 4294967296,
     (h.getD 6 0 + g) % 4294967296, (h.getD 7 0 + hh) % 4294967296]

def sha256blocks (h : List Nat) : List Nat → List Nat
  | [] => h
  | w :: rest => sha256blocks (sha256compress h ((w :: rest).take 16)) ((w :: rest).drop 16)
  termination_by l => l.length
  decreasing_by simp [List.length_drop]; omega

def sha256bytes (msg : List Nat) : List Nat :=
  let words := bytesToWords (sha256pad msg)
  (sha256blocks sha256H0 words).foldr (fun x acc => natToBytesBE x 4 ++ acc) []

/-- Lowercase hex digest characters. -/
def sha256hexdigest (msg : List Nat) : List Char :=
  (sha256bytes msg).foldr (fun b acc => digitChar (b / 16) :: digitChar (b % 16) :: acc) []

/-- UTF-8 encoding of one character (`str.encode()`). -/
def charUtf8 (c : Char) : List Nat :=
  let n := c.toNat
  if n < 0x80 then [n]
  else if n < 0x800 then [0xc0 + n / 64, 0x80 + n % 64]
  else if n < 0x10000 then [0xe0 + n / 4096, 0x80 + (n / 64) % 64, 0x80 + n % 64]
  else [0xf0 + n / 262144, 0x80 + (n / 4096) % 64, 0x80 + (n / 64) % 64, 0x80 + n % 64]

def strUtf8 (s : String) : List Nat :=
  s.data.foldr (fun c acc => charUtf8 c ++ acc) []

/-! ## Python `int(s, 16)` -/

/-- Hex digits with single underscores allowed between digits. -/
def hexCoreGo (acc : Nat) : List Char → Option Nat
  | [] => some acc
  | '_' :: c :: r =>
    match hexDigitVal c with
    | some d => hexCoreGo (acc * 16 + d) r
    | none => none
  | '_' :: [] => none
  | c :: r =>
    match hexDigitVal c with
    | some d => hexCoreGo (acc * 16 + d) r
    | none => none

def hexCore : List Char → Option Nat
  | [] => none
  | c :: r =>
    match hexDigitVal c with
    | some d => hexCoreGo d r
    | none => none

/-- The digit part of `int(s, 16)`: an optional `0x`/`0X` prefix (an
underscore may follow it), then hex digits with single underscores. -/
def parseHexPy : List Char → Option Nat
  | '0' :: x :: r =>
    if x = 'x' ∨ x = 'X' then
      match r with
      | '_' :: r2 => hexCore r2
      | _ => hexCore r
    else hexCore ('0' :: x :: r)
  | l => hexCore l

/-- Python `int(s, 16)`: surrounding whitespace, an optional sign, then the
digit part; `none` models `ValueError`. -/
def pyIntBase16Chars (l : List Char) : Option Int :=
  match pyStrip l with
  | '+' :: r => (parseHexPy r).map Int.ofNat
  | '-' :: r => (parseHexPy r).map (fun n => -(Int.ofNat n))
  | r => (parseHexPy r).map Int.ofNat

/-- Python slice `l[a:b]` for characters. -/
def pySlice (l : List Char) (a b : Nat) : List Char := (l.drop a).take (b - a)

/-! ## Friendly names (src/claude_notify/tracker/friendly_names.py) -/

def ADJECTIVES : List String := [
  "bold", "swift", "cosmic", "bright", "calm", "eager", "fair", "gentle",
  "happy", "keen", "lively", "merry", "noble", "proud", "quick", "ready",
  "smart", "true", "vivid", "warm", "wise", "young", "zesty", "agile",
  "brave", "clear", "deft", "epic", "fresh", "grand", "humble", "ideal"]

def NOUNS : List String := [
  "cat", "eagle", "dragon", "wolf", "bear", "hawk", "lion", "tiger",
  "fox", "owl", "raven", "shark", "whale", "deer", "horse", "falcon",
  "phoenix", "griffin", "panther", "cobra", "jaguar", "orca", "puma", "lynx",
  "badger", "otter", "crane", "heron", "swan", "viper", "raptor", "condor"]

/-- Value of the first 16 hex-digest characters (`int(hexdigest[:16], 16)`;
a digest prefix always parses, so the value is computed directly). -/
def hexPrefixVal (hex : List Char) : Nat :=
  (hex.take 16).foldl (fun acc c => acc * 16 + (hexDigitVal c).getD 0) 0

/-- The seed pair of `generate_friendly_name`: the two 8-character hex
halves when they parse, otherwise the two 32-bit halves of the first 64
bits of SHA-256 of the unstripped id. -/
def friendlySeeds (session_id : String) : Int × Int :=
  let clean_id := session_id.data.filter (fun c => !(c = '-'))
  match pyIntBase16Chars (pySlice clean_id 0 8),
      pyIntBase16Chars (pySlice clean_id 8 16) with
  | some a, some n => (a, n)
  | _, _ =>
    let h := hexPrefixVal (sha256hexdigest (strUtf8 session_id))
    (Int.ofNat (h % 4294967296), Int.ofNat (h / 4294967296 % 4294967296))

/-- `generate_friendly_name(session_id)`. -/
def generate_friendly_name (session_id : String) : String :=
  let seeds := friendlySeeds session_id
  let adjective := ADJECTIVES.getD ((seeds.1 % 32).toNat) ""
  let noun := NOUNS.getD ((seeds.2 % 32).toNat) ""
  adjective ++ "-" ++ noun

/-- Modelled from the spec (§4.2), for comparison with the source's
`generate_friendly_name`: strip dashes, seed from the two 8-character
base-16 halves or else from SHA-256 of the unstripped id, then index the
word lists by seed modulo their length. -/
def specFriendlyName (id : String) : String :=
  let stripped := id.data.filter (fun c => !(c = '-'))
  let seeds : Int × Int :=
    match pyIntBase16Chars (pySlice stripped 0 8),
        pyIntBase16Chars (pySlice stripped 8 16) with
    | some a, some b => (a, b)
    | _, _ =>
      let h := hexPrefixVal (sha256hexdigest (strUtf8 id))
      (Int.ofNat (h % 4294967296), Int.ofNat (h / 4294967296 % 4294967296))
  let adjective := ADJECTIVES.getD ((seeds.1 % Int.ofNat ADJECTIVES.length).toNat) ""
  let noun := NOUNS.getD ((seeds.2 % Int.ofNat NOUNS.length).toNat) ""
  adjective ++ "-" ++ noun

/-! ## Session state machine (src/claude_notify/tracker/state.py) -/

/-- The four session states. -/
inductive State where
  | WORKING
  | NEEDS_ATTENTION
  | SESSION_LIMIT
  | API_ERROR
  deriving DecidableEq

/-- Per-session state (dataclass `SessionState`); times are `Nat` ticks of
the explicit clock. -/
structure SessionState where
  session_id : String
  cwd : String
  terminal_uuid : Option String
  state : State
  activity : String
  friendly_name : String
  persistent_notif_id : Option Nat
  popup_notif_id : Option Nat
  last_update : Nat
  needs_attention_since : Option Nat
  deriving DecidableEq

/-- Construction of a `SessionState` with the dataclass defaults and the
`__post_init__` friendly-name derivation; `now` is `time.time()`. -/
def mkSessionState (session_id cwd : String) (terminal_uuid : Option String)
    (now : Nat) : SessionState :=
  { session_id := session_id, cwd := cwd, terminal_uuid := terminal_uuid,
    state := .WORKING, activity := "",
    friendly_name := generate_friendly_name session_id,
    persistent_notif_id := none, popup_notif_id := none,
    last_update := now, needs_attention_since := none }

/-- `SessionState.transition_to(new_state)`: the updated session and the
returned value (previous state, or `none` on a no-op). -/
def SessionState.transition_to (s : SessionState) (new_state : State) (now : Nat) :
    SessionState × Option State :=
  if s.state = new_state then (s, none)
  else
    ({ s with
        state := new_state,
        last_update := now,
        needs_attention_since :=
          if new_state = .NEEDS_ATTENTION then some now else none },
      some s.state)

/-- `SessionState.update_activity(activity)`. -/
def SessionState.update_activity (s : SessionState) (activity : String) (now : Nat) :
    SessionState :=
  { s with activity := activity, last_update := now }

/-- `SessionState.project_name`: `self.cwd.rstrip("/").split("/")[-1]`. -/
def SessionState.project_name (s : SessionState) : String :=
  String.mk ((splitChar (pyRstripChar s.cwd.data '/') '/').getLastD [])

/-! ## Session registry (src/claude_notify/tracker/registry.py)

The dict is an association list in insertion order; listener callbacks are
modelled by the list of `(event, session)` notifications a call emits. -/

structure SessionRegistry where
  sessions : List (String × SessionState)
  deriving DecidableEq

namespace SessionRegistry

def empty : SessionRegistry := ⟨[]⟩

/-- Dict lookup `self._sessions.get(session_id)` / membership test. -/
def get (r : SessionRegistry) (session_id : String) : Option SessionState :=
  (r.sessions.find? (fun p => p.1 = session_id)).map (·.2)

/-- `register(session_id, cwd, terminal_uuid)`: the updated registry, the
returned session, and the listener events fired. -/
def register (r : SessionRegistry) (session_id cwd : String)
    (terminal_uuid : Option String) (now : Nat) :
    SessionRegistry × SessionState × List (String × SessionState) :=
  match r.get session_id with
  | some s => (r, s, [])
  | none =>
    let session := mkSessionState session_id cwd terminal_uuid now
    (⟨r.sessions ++ [(session_id, session)]⟩, session,
      [("session_registered", session)])

/-- `unregister(session_id)`: remove and return the session, firing an
event when it was present. -/
def unregister (r : SessionRegistry) (session_id : String) :
    SessionRegistry × Option SessionState × List (String × SessionState) :=
  match r.get session_id with
  | some s =>
    (⟨r.sessions.filter (fun p => !(p.1 = session_id))⟩, some s,
      [("session_unregistered", s)])
  | none => (r, none, [])

/-- `all()`. -/
def all (r : SessionRegistry) : List SessionState := r.sessions.map (·.2)

/-- `by_state(state)`. -/
def by_state (r : SessionRegistry) (state : State) : List SessionState :=
  (r.sessions.map (·.2)).filter (fun s => s.state = state)

/-- Write back a mutated session object: in Python the dict holds a
reference, so mutating the session is visible at its key. -/
def put (r : SessionRegistry) (session_id : String) (s : SessionState) :
    SessionRegistry :=
  ⟨r.sessions.map (fun p => if p.1 = session_id then (p.1, s) else p)⟩

end SessionRegistry

/-! ## Event parsing and classification (src/claude_notify/tracker/events.py) -/

/-- Parsed hook event (dataclass `HookEvent`).  `tool_input` may be any
JSON value; the other optional fields are strings in every payload the
daemon handles (non-string values are not modelled). -/
structure HookEvent where
  event_name : String
  session_id : String
  cwd : String
  tool_name : Option String
  tool_input : Option Json
  message : Option String
  transcript_path : Option String
  deriving DecidableEq

/-- `claude_data.get(key, default)` for a string field: the default when
the key is absent, the string when present. -/
def getStrD (fs : JsonObj) (key dflt : String) : Option String :=
  match objGet fs key with
  | none => some dflt
  | some (.str s) => some s
  | some _ => none

/-- `claude_data.get(key)` for an optional string field. -/
def getStrOpt (fs : JsonObj) (key : String) : Option (Option String) :=
  match objGet fs key with
  | none => some none
  | some (.str s) => some (some s)
  | some _ => none

/-- `parse_hook_event(claude_data)`: `none` models the exception raised by
`.get` when `claude_data` is not a dict (and the unmodelled non-string
field values). -/
def parse_hook_event (claude_data : Json) : Option HookEvent :=
  match claude_data with
  | .obj fs => do
    let event_name ← getStrD fs "hook_event_name" "Unknown"
    let session_id ← getStrD fs "session_id" ""
    let cwd ← getStrD fs "cwd" ""
    let tool_name ← getStrOpt fs "tool_name"
    let message ← getStrOpt fs "message"
    let transcript_path ← getStrOpt fs "transcript_path"
    pure { event_name := event_name, session_id := session_id, cwd := cwd,
           tool_name := tool_name, tool_input := objGet fs "tool_input",
           message := message, transcript_path := transcript_path }
  | _ => none

/-- Events that indicate Claude is working. -/
def WORKING_EVENTS : List String :=
  ["PreToolUse", "PostToolUse", "UserPromptSubmit", "SessionStart"]

/-- Events that indicate Claude needs attention. -/
def NEEDS_ATTENTION_EVENTS : List String :=
  ["Stop", "SubagentStop", "Notification"]

/-- `determine_state_from_event(event)`. -/
def determine_state_from_event (event : HookEvent) : State :=
  if event.event_name ∈ WORKING_EVENTS then .WORKING
  else if event.event_name ∈ NEEDS_ATTENTION_EVENTS then .NEEDS_ATTENTION
  else .WORKING

/-! ## Daemon orchestrator (src/claude_notify/daemon/main.py)

The notification adapter is modelled by the list of operations the handler
emits; the adapter's returned notification id is the parameter `nid`
(adapter failures, which the source logs and swallows, are not modelled).
`none` models an uncaught exception in the handler. -/

/-- One call to the notification adapter. -/
inductive NotifOp where
  | show_persistent (session_id friendly_name project_name : String) (state : State)
      (activity : String) (replaces_id : Nat)
  | dismiss (id : Nat)
  deriving DecidableEq

structure DaemonState where
  registry : SessionRegistry
  has_notifications : Bool
  deriving DecidableEq

/-- `message.env.get(key)` for a string value (non-string env entries are
not modelled and read as absent). -/
def envGetStr (fs : JsonObj) (key : String) : Option String :=
  match objGet fs key with
  | some (.str s) => some s
  | _ => none

/-- `Daemon.handle_message(message)`, with the clock `now` and the
notification id `nid` the adapter would return. -/
def handle_message (st : DaemonState) (message : HookMessage) (now : Nat)
    (nid : Nat) : Option (DaemonState × List NotifOp) :=
  match message.claude_data with
  | none => some (st, [])
  | some cd =>
    match parse_hook_event cd with
    | none => none
    | some event =>
      match message.env with
      | .obj envFs =>
        let terminal_uuid := envGetStr envFs "GNOME_TERMINAL_SCREEN"
        let (reg1, session) :=
          match st.registry.get event.session_id with
          | some s => (st.registry, s)
          | none =>
            let r := st.registry.register event.session_id event.cwd terminal_uuid now
            (r.1, r.2.1)
        let session :=
          if optStrTruthy terminal_uuid ∧ optStrTruthy session.terminal_uuid = false then
            { session with terminal_uuid := terminal_uuid }
          else session
        let session := (session.transition_to (determine_state_from_event event) now).1
        let session :=
          if optStrTruthy event.message then
            session.update_activity (event.message.getD "") now
          else session
        let updated :=
          if st.has_notifications then
            ({ session with persistent_notif_id := some nid },
             [NotifOp.show_persistent session.session_id session.friendly_name
                session.project_name session.state session.activity
                (session.persistent_notif_id.getD 0)])
          else (session, ([] : List NotifOp))
        let session := updated.1
        let ops := updated.2
        let reg2 := reg1.put session.session_id session
        if event.event_name = "SessionEnd" then
          let dismissOps :=
            (if st.has_notifications ∧ optNatTruthy session.persistent_notif_id then
              [NotifOp.dismiss (session.persistent_notif_id.getD 0)]
            else []) ++
            (if st.has_notifications ∧ optNatTruthy session.popup_notif_id then
              [NotifOp.dismiss (session.popup_notif_id.getD 0)]
            else [])
          some ({ st with registry := (reg2.unregister session.session_id).1 },
            ops ++ dismissOps)
        else
          some ({ st with registry := reg2 }, ops)
      | _ => none

/-! ## Socket activation (src/claude_notify/daemon/server.py)

The socket-activation support is absent from src/ — only
tests/test_socket_activation.py references `get_socket_from_systemd` and
`DaemonServer._systemd_activated` — so this part is modelled from the
spec (§4.5, §6): the environment carries a file-descriptor count and a
pid-to-match; descriptor slot 3 is the pre-opened socket; any non-numeric
or mismatched value means "not activated". -/

def parseDecimalNat (s : String) : Option Nat := parseDigits (pyStrip s.data)

def envLookup (env : List (String × String)) (k : String) : Option String :=
  (env.find? (fun p => p.1 = k)).map (·.2)

/-- Modelled from the spec: `get_socket_from_systemd` — the adopted
descriptor (slot 3) when `LISTEN_FDS` is numeric and covers it and
`LISTEN_PID` is numeric and matches the daemon's own pid. -/
def get_socket_from_systemd (env : List (String × String)) (ownPid : Nat) :
    Option Nat :=
  match envLookup env "LISTEN_FDS" with
  | none => none
  | some fdsStr =>
    match parseDecimalNat fdsStr with
    | none => none
    | some fds =>
      match envLookup env "LISTEN_PID" with
      | none => none
      | some pidStr =>
        match parseDecimalNat pidStr with
        | none => none
        | some pid => if pid = ownPid ∧ 1 ≤ fds then some 3 else none

/-- The listening socket a started server uses. -/
inductive SocketSrc where
  | adopted (fd : Nat)
  | bound (path : String)
  deriving DecidableEq

structure StartResult where
  systemd_activated : Bool
  socket : SocketSrc
  deriving DecidableEq

/-- Modelled from the spec: the socket-setup decision of
`DaemonServer.start()` — adopt the systemd socket when available
(recording `_systemd_activated = true`), otherwise bind the configured
path. -/
def DaemonServer.start (env : List (String × String)) (ownPid : Nat)
    (socket_path : String) : StartResult :=
  match get_socket_from_systemd env ownPid with
  | some fd => ⟨true, .adopted fd⟩
  | none => ⟨false, .bound socket_path⟩

/-! ## The claims -/

/-! ## Helper lemmas for the claims -/

theorem emod32_toNat_lt (x : Int) : (x % 32).toNat < 32 := by
  have h1 := Int.emod_nonneg x (by norm_num : (32 : Int) ≠ 0)
  have h2 := Int.emod_lt_of_pos x (by norm_num : (0 : Int) < 32)
  omega

theorem getD_mem_of_lt (l : List String) (i : Nat) (h : i < l.length) (d : String) :
    l.getD i d ∈ l := by
  rw [List.getD_eq_getElem?_getD, List.getElem?_eq_getElem h]
  exact List.getElem_mem h

/-- A neutral event record carrying just an event name. -/
def mkEv (name : String) : HookEvent :=
  ⟨name, "", "", none, none, none, none⟩

/-- C4: the event classifier is a pure function of the event name: the four
working events map to WORKING, the three attention events map to
NEEDS_ATTENTION, and every name outside both sets maps to WORKING. -/
theorem C4_classifier_table :
    (∀ e1 e2 : HookEvent, e1.event_name = e2.event_name →
      determine_state_from_event e1 = determine_state_from_event e2)
    ∧ determine_state_from_event (mkEv "SessionStart") = .WORKING
    ∧ determine_state_from_event (mkEv "PreToolUse") = .WORKING
    ∧ determine_state_from_event (mkEv "PostToolUse") = .WORKING
    ∧ determine_state_from_event (mkEv "UserPromptSubmit") = .WORKING
    ∧ determine_state_from_event (mkEv "Stop") = .NEEDS_ATTENTION
    ∧ determine_state_from_event (mkEv "SubagentStop") = .NEEDS_ATTENTION
    ∧ determine_state_from_event (mkEv "Notification") = .NEEDS_ATTENTION
    ∧ ∀ ev : HookEvent, ev.event_name ∉ WORKING_EVENTS →
        ev.event_name ∉ NEEDS_ATTENTION_EVENTS →
        determine_state_from_event ev = .WORKING := by
  refine ⟨?_, rfl, rfl, rfl, rfl, rfl, rfl, rfl, ?_⟩
  · intro e1 e2 h
    rw [determine_state_from_event, determine_state_from_event, h]
  · intro ev h1 h2
    rw [determine_state_from_event, if_neg h1, if_neg h2]

theorem C4_classifier_table_witness :
    determine_state_from_event (mkEv "CompactBoundary") = .WORKING ∧
    determine_state_from_event (mkEv "Stop") = .NEEDS_ATTENTION :=
  ⟨C4_classifier_table.2.2.2.2.2.2.2.2 (mkEv "CompactBoundary")
      (by decide) (by decide),
    C4_classifier_table.2.2.2.2.2.1⟩

/-- C3: a decoded message whose structured payload is null mutates no
state: the daemon state (registry and all sessions) is returned unchanged
and no notification adapter operation is emitted. -/
theorem C3_null_payload_no_mutation (st : DaemonState) (message : HookMessage)
    (now nid : Nat) (h : message.claude_data = none) :
    handle_message st message now nid = some (st, []) := by
  rw [handle_message, h]

theorem C3_null_payload_no_mutation_witness :
    handle_message ⟨.empty, true⟩
      ⟨.num 1, .num 2, .obj .nil, .num 3, none, "not json"⟩ 5 7 =
      some (⟨.empty, true⟩, []) :=
  C3_null_payload_no_mutation _ _ 5 7 rfl

/-- C6: register is idempotent: when the id is already present, register
returns the unchanged registry and the existing session, creates no entry,
and fires no listener event. -/
theorem C6_register_idempotent (r : SessionRegistry) (id cwd : String)
    (tu : Option String) (now : Nat) (s : SessionState)
    (h : r.get id = some s) :
    r.register id cwd tu now = (r, s, []) := by
  rw [SessionRegistry.register, h]

theorem C6_register_idempotent_witness :
    SessionRegistry.register
        ⟨[("aabbccdd11223344", mkSessionState "aabbccdd11223344" "/home/u/proj" none 3)]⟩
        "aabbccdd11223344" "/elsewhere" (some "T") 9 =
      (⟨[("aabbccdd11223344", mkSessionState "aabbccdd11223344" "/home/u/proj" none 3)]⟩,
        mkSessionState "aabbccdd11223344" "/home/u/proj" none 3, []) :=
  C6_register_idempotent _ _ _ _ _ _ (by rfl)

/-- The description the spec gives of `project_name`, amended only where the
counterexample forces it: trailing path segment of the working directory
with trailing slashes stripped; when the directory is empty or consists
only of separators, the result is the empty string (the spec said the
working directory itself, which fails at "/"). -/
def projectNameAmended (cwd : String) : String :=
  let stripped := pyRstripChar cwd.data '/'
  if stripped = [] then ""
  else String.mk ((splitChar stripped '/').getLastD [])

/-- C9 (counterexample): for working directory "/", `project_name` returns
"" and not the working directory string itself. -/
theorem C9_project_name_counterexample :
    (mkSessionState "aabbccdd11223344" "/" none 0).project_name = "" ∧
      ("" : String) ≠ "/" := by
  constructor
  · rfl
  · decide

/-- C9 (amended): `project_name` agrees everywhere with the amended
description: last segment after stripping trailing slashes, empty string
when nothing remains. -/
theorem C9_project_name_amended (s : SessionState) :
    s.project_name = projectNameAmended s.cwd := by
  rw [SessionState.project_name, projectNameAmended]
  by_cases h : pyRstripChar s.cwd.data '/' = []
  · rw [h, if_pos rfl]
    rfl
  · rw [if_neg h]

/-- Sessions as produced by registration and mutated only through
`transition_to` and `update_activity`. -/
inductive ReachableSession : SessionState → Prop where
  | registered (id cwd : String) (tu : Option String) (now : Nat) :
      ReachableSession (mkSessionState id cwd tu now)
  | transitioned (s : SessionState) (ns : State) (now : Nat) :
      ReachableSession s → ReachableSession (s.transition_to ns now).1
  | activity (s : SessionState) (a : String) (now : Nat) :
      ReachableSession s → ReachableSession (s.update_activity a now)

/-- C7: for every reachable session, `needs_attention_since` is set iff the
state is NEEDS_ATTENTION; a real transition sets it when entering
NEEDS_ATTENTION and clears it otherwise while returning the previous
state; a no-op transition returns none and leaves the session (state,
attention time and last_update included) unchanged. -/
theorem C7_attention_invariant (s : SessionState) (h : ReachableSession s) :
    (s.needs_attention_since.isSome = true ↔ s.state = .NEEDS_ATTENTION)
    ∧ (∀ ns now, ns ≠ s.state →
        (s.transition_to ns now).1.needs_attention_since =
          (if ns = .NEEDS_ATTENTION then some now else none) ∧
        (s.transition_to ns now).2 = some s.state)
    ∧ (∀ now, s.transition_to s.state now = (s, none)) := by
  refine ⟨?_, ?_, ?_⟩
  · induction h with
    | registered id cwd tu now => simp [mkSessionState]
    | transitioned s ns now hs ih =>
      rw [SessionState.transition_to]
      by_cases he : s.state = ns
      · rw [if_pos he]
        exact ih
      · rw [if_neg he]
        by_cases hn : ns = State.NEEDS_ATTENTION
        · simp [hn]
        · simp [hn]
    | activity s a now hs ih =>
      simpa [SessionState.update_activity] using ih
  · intro ns now hne
    rw [SessionState.transition_to, if_neg (fun e => hne e.symm)]
    exact ⟨rfl, rfl⟩
  · intro now
    rw [SessionState.transition_to, if_pos rfl]

theorem C7_attention_invariant_witness :
    ((mkSessionState "aabbccdd11223344" "/p" none 0).needs_attention_since.isSome = true ↔
      (mkSessionState "aabbccdd11223344" "/p" none 0).state = .NEEDS_ATTENTION)
    ∧ (∀ ns now, ns ≠ (mkSessionState "aabbccdd11223344" "/p" none 0).state →
        ((mkSessionState "aabbccdd11223344" "/p" none 0).transition_to ns now).1.needs_attention_since =
          (if ns = .NEEDS_ATTENTION then some now else none) ∧
        ((mkSessionState "aabbccdd11223344" "/p" none 0).transition_to ns now).2 =
          some (mkSessionState "aabbccdd11223344" "/p" none 0).state)
    ∧ (∀ now, (mkSessionState "aabbccdd11223344" "/p" none 0).transition_to
        (mkSessionState "aabbccdd11223344" "/p" none 0).state now =
        (mkSessionState "aabbccdd11223344" "/p" none 0, none)) :=
  C7_attention_invariant _ (ReachableSession.registered _ _ _ _)

/-- The activation probe only ever yields descriptor 3 or nothing. -/
theorem gsfs_shape (env : List (String × String)) (ownPid : Nat) :
    get_socket_from_systemd env ownPid = none ∨
    get_socket_from_systemd env ownPid = some 3 := by
  cases h1 : envLookup env "LISTEN_FDS" with
  | none => left; simp [get_socket_from_systemd, h1]
  | some fdsStr =>
    cases h2 : parseDecimalNat fdsStr with
    | none => left; simp [get_socket_from_systemd, h1, h2]
    | some fds =>
      cases h3 : envLookup env "LISTEN_PID" with
      | none => left; simp [get_socket_from_systemd, h1, h2, h3]
      | some pidStr =>
        cases h4 : parseDecimalNat pidStr with
        | none => left; simp [get_socket_from_systemd, h1, h2, h3, h4]
        | some pid =>
          by_cases h5 : pid = ownPid ∧ 1 ≤ fds
          · right; simp [get_socket_from_systemd, h1, h2, h3, h4, h5]
          · left; simp only [get_socket_from_systemd, h1, h2, h3, h4]
            rw [if_neg h5]

/-- C8 (modelled from the spec, the activation code being absent from
src/): start() takes exactly one of the two paths — adopt descriptor 3 or
bind its own socket; the choice is introspectable through
`systemd_activated`; a numeric LISTEN_FDS covering descriptor 3 together
with a numeric LISTEN_PID equal to the own pid of the daemon adopts the
descriptor, and a non-numeric or mismatched LISTEN_PID (or non-numeric
LISTEN_FDS) binds a fresh socket. -/
theorem C8_socket_activation (env : List (String × String)) (ownPid : Nat)
    (path : String) :
    ((DaemonServer.start env ownPid path = ⟨true, .adopted 3⟩ ∨
        DaemonServer.start env ownPid path = ⟨false, .bound path⟩)
      ∧ ¬(DaemonServer.start env ownPid path = ⟨true, .adopted 3⟩ ∧
          DaemonServer.start env ownPid path = ⟨false, .bound path⟩))
    ∧ ((DaemonServer.start env ownPid path).systemd_activated = true ↔
        (DaemonServer.start env ownPid path).socket = .adopted 3)
    ∧ (∀ fdsStr pidStr fds,
        envLookup env "LISTEN_FDS" = some fdsStr →
        parseDecimalNat fdsStr = some fds → 1 ≤ fds →
        envLookup env "LISTEN_PID" = some pidStr →
        parseDecimalNat pidStr = some ownPid →
        DaemonServer.start env ownPid path = ⟨true, .adopted 3⟩)
    ∧ (∀ pidStr,
        envLookup env "LISTEN_PID" = some pidStr →
        (∀ pid, parseDecimalNat pidStr = some pid → pid ≠ ownPid) →
        DaemonServer.start env ownPid path = ⟨false, .bound path⟩)
    ∧ (∀ fdsStr,
        envLookup env "LISTEN_FDS" = some fdsStr →
        parseDecimalNat fdsStr = none →
        DaemonServer.start env ownPid path = ⟨false, .bound path⟩) := by
  refine ⟨⟨?_, ?_⟩, ?_, ?_, ?_, ?_⟩
  · rcases gsfs_shape env ownPid with h | h
    · right; simp [DaemonServer.start, h]
    · left; simp [DaemonServer.start, h]
  · rintro ⟨e1, e2⟩
    rw [e1] at e2
    simp at e2
  · rcases gsfs_shape env ownPid with h | h <;> simp [DaemonServer.start, h]
  · intro fdsStr pidStr fds h1 h2 h3 h4 h5
    have hg : get_socket_from_systemd env ownPid = some 3 := by
      simp [get_socket_from_systemd, h1, h2, h4, h5, h3]
    simp [DaemonServer.start, hg]
  · intro pidStr h1 h2
    have hg : get_socket_from_systemd env ownPid = none := by
      cases h3 : envLookup env "LISTEN_FDS" with
      | none => simp [get_socket_from_systemd, h3]
      | some fdsStr =>
        cases h4 : parseDecimalNat fdsStr with
        | none => simp [get_socket_from_systemd, h3, h4]
        | some fds =>
          cases h5 : parseDecimalNat pidStr with
          | none => simp [get_socket_from_systemd, h3, h4, h1, h5]
          | some pid =>
            have hne := h2 pid h5
            simp only [get_socket_from_systemd, h3, h4, h1, h5]
            rw [if_neg (by simp [hne])]
    simp [DaemonServer.start, hg]
  · intro fdsStr h1 h2
    have hg : get_socket_from_systemd env ownPid = none := by
      simp [get_socket_from_systemd, h1, h2]
    simp [DaemonServer.start, hg]

theorem C8_socket_activation_witness :
    DaemonServer.start [("LISTEN_FDS", "1"), ("LISTEN_PID", "77")] 77 "/run/s.sock" =
        ⟨true, .adopted 3⟩
    ∧ DaemonServer.start [("LISTEN_FDS", "1"), ("LISTEN_PID", "notanumber")] 77
        "/run/s.sock" = ⟨false, .bound "/run/s.sock"⟩
    ∧ DaemonServer.start [("LISTEN_FDS", "1"), ("LISTEN_PID", "99")] 77
        "/run/s.sock" = ⟨false, .bound "/run/s.sock"⟩ :=
  ⟨(C8_socket_activation [("LISTEN_FDS", "1"), ("LISTEN_PID", "77")] 77
      "/run/s.sock").2.2.1 "1" "77" 1 rfl rfl (by decide) rfl rfl,
   (C8_socket_activation [("LISTEN_FDS", "1"), ("LISTEN_PID", "notanumber")] 77
      "/run/s.sock").2.2.2.1 "notanumber" rfl
      (fun pid hp => by
        have h0 : parseDecimalNat "notanumber" = none := rfl
        rw [h0] at hp
        exact absurd hp (by simp)),
   (C8_socket_activation [("LISTEN_FDS", "1"), ("LISTEN_PID", "99")] 77
      "/run/s.sock").2.2.2.1 "99" rfl
      (fun pid hp => by
        have : pid = 99 := by
          have h2 : parseDecimalNat "99" = some 99 := rfl
          rw [h2] at hp
          exact (Option.some.inj hp).symm
        omega)⟩

/-- C5: the friendly-name derivation equals the spec reference algorithm
on every id (hex path iff the two 8-character halves parse as base-16
integers, SHA-256 fallback otherwise), is total (never raises), and always
yields an adjective-noun string drawn from the two fixed 32-entry lists. -/
theorem C5_friendly_name_reference (id : String) :
    generate_friendly_name id = specFriendlyName id ∧
    ∃ a ∈ ADJECTIVES, ∃ n ∈ NOUNS, generate_friendly_name id = a ++ "-" ++ n := by
  constructor
  · rfl
  · refine ⟨ADJECTIVES.getD (((friendlySeeds id).1 % 32).toNat) "", ?_,
      NOUNS.getD (((friendlySeeds id).2 % 32).toNat) "", ?_, rfl⟩
    · refine getD_mem_of_lt _ _ ?_ _
      have h32 : ADJECTIVES.length = 32 := rfl
      rw [h32]
      exact emod32_toNat_lt _
    · refine getD_mem_of_lt _ _ ?_ _
      have h32 : NOUNS.length = 32 := rfl
      rw [h32]
      exact emod32_toNat_lt _

/-! ## C10 helpers: registry key preservation -/

theorem find_map_put_isSome (l : List (String × SessionState)) (k k2 : String)
    (s : SessionState) :
    ((l.map (fun p => if p.1 = k then (p.1, s) else p)).find?
        (fun p => p.1 = k2)).isSome =
      (l.find? (fun p => p.1 = k2)).isSome := by
  induction l with
  | nil => rfl
  | cons p t ih =>
    by_cases hk : p.1 = k
    · simp only [List.map_cons, if_pos hk]
      rw [List.find?_cons, List.find?_cons]
      dsimp only
      by_cases h2 : p.1 = k2
      · simp [h2]
      · rw [decide_eq_false h2]
        exact ih
    · simp only [List.map_cons, if_neg hk]
      rw [List.find?_cons, List.find?_cons]
      by_cases h2 : p.1 = k2
      · simp [h2]
      · rw [decide_eq_false h2]
        exact ih

theorem isSome_map_eq {α β : Type} (f : α → β) (o : Option α) :
    (o.map f).isSome = o.isSome := by
  cases o <;> rfl

theorem get_put_isSome (r : SessionRegistry) (k k2 : String) (s : SessionState) :
    ((r.put k s).get k2).isSome = (r.get k2).isSome := by
  obtain ⟨l⟩ := r
  simp only [SessionRegistry.put, SessionRegistry.get, isSome_map_eq]
  exact find_map_put_isSome l k k2 s

theorem find_append_self_isSome (l : List (String × SessionState)) (id : String)
    (s : SessionState) :
    ((l ++ [(id, s)]).find? (fun p => p.1 = id)).isSome = true := by
  induction l with
  | nil => simp [List.find?]
  | cons p t ih =>
    rw [List.cons_append, List.find?_cons]
    by_cases h : p.1 = id
    · simp [h]
    · simp [h, ih]

theorem register_get_isSome (r : SessionRegistry) (id cwd : String)
    (tu : Option String) (now : Nat) :
    (((r.register id cwd tu now).1).get id).isSome = true := by
  simp only [SessionRegistry.register]
  cases hg : r.get id with
  | some s =>
    rw [hg]
    rfl
  | none =>
    obtain ⟨l⟩ := r
    simp only [SessionRegistry.get, isSome_map_eq]
    exact find_append_self_isSome l id _

/-- C10 (implicit): a JSON-object payload that parses but lacks the
session-id and event-name keys is still processed as a valid event: the
event name defaults to "Unknown" (classified WORKING), the session id
defaults to "", and handle_message succeeds and leaves a registry entry
keyed by the empty string (creating it when absent) rather than rejecting
the message. -/
theorem C10_missing_keys_defaults (st : DaemonState) (message : HookMessage)
    (fs envFs : JsonObj) (ev : HookEvent) (now nid : Nat)
    (hcd : message.claude_data = some (.obj fs))
    (hsid : objGet fs "session_id" = none)
    (hname : objGet fs "hook_event_name" = none)
    (henv : message.env = .obj envFs)
    (hparse : parse_hook_event (.obj fs) = some ev) :
    ev.session_id = "" ∧ ev.event_name = "Unknown" ∧
    determine_state_from_event ev = .WORKING ∧
    ∃ st2 ops, handle_message st message now nid = some (st2, ops) ∧
      (st2.registry.get "").isSome = true := by
  have h1 : getStrD fs "hook_event_name" "Unknown" = some "Unknown" := by
    simp [getStrD, hname]
  have h2 : getStrD fs "session_id" "" = some "" := by
    simp [getStrD, hsid]
  rw [parse_hook_event] at hparse
  rw [h1, h2] at hparse
  simp only [Option.bind_eq_bind, Option.some_bind] at hparse
  cases hc : getStrD fs "cwd" "" with
  | none => rw [hc] at hparse; exact absurd hparse (by simp)
  | some cwd0 =>
  rw [hc] at hparse
  simp only [Option.bind_eq_bind, Option.some_bind] at hparse
  cases htn : getStrOpt fs "tool_name" with
  | none => rw [htn] at hparse; exact absurd hparse (by simp)
  | some tn0 =>
  rw [htn] at hparse
  simp only [Option.bind_eq_bind, Option.some_bind] at hparse
  cases hm : getStrOpt fs "message" with
  | none => rw [hm] at hparse; exact absurd hparse (by simp)
  | some m0 =>
  rw [hm] at hparse
  simp only [Option.bind_eq_bind, Option.some_bind] at hparse
  cases htp : getStrOpt fs "transcript_path" with
  | none => rw [htp] at hparse; exact absurd hparse (by simp)
  | some tp0 =>
  rw [htp] at hparse
  simp only [Option.bind_eq_bind, Option.some_bind] at hparse
  have hev : (⟨"Unknown", "", cwd0, tn0, objGet fs "tool_input", m0, tp0⟩ : HookEvent) = ev :=
    Option.some.inj hparse
  subst hev
  refine ⟨rfl, rfl, by rw [determine_state_from_event]; rfl, ?_⟩
  have hparse2 : parse_hook_event (.obj fs) =
      some (⟨"Unknown", "", cwd0, tn0, objGet fs "tool_input", m0, tp0⟩ : HookEvent) := by
    rw [parse_hook_event, h1, h2]
    simp only [Option.bind_eq_bind, Option.some_bind]
    rw [hc]
    simp only [Option.bind_eq_bind, Option.some_bind]
    rw [htn]
    simp only [Option.bind_eq_bind, Option.some_bind]
    rw [hm]
    simp only [Option.bind_eq_bind, Option.some_bind]
    rw [htp]
    simp only [Option.bind_eq_bind, Option.some_bind]
    rfl
  rw [handle_message, hcd]
  dsimp only
  rw [hparse2]
  dsimp only
  rw [henv]
  dsimp only
  cases hget : st.registry.get "" with
  | some s0 =>
    dsimp only
    rw [if_neg (by decide : ¬("Unknown" = "SessionEnd"))]
    refine ⟨_, _, rfl, ?_⟩
    dsimp only
    rw [get_put_isSome, hget]
    rfl
  | none =>
    dsimp only
    rw [if_neg (by decide : ¬("Unknown" = "SessionEnd"))]
    refine ⟨_, _, rfl, ?_⟩
    dsimp only
    rw [get_put_isSome]
    exact register_get_isSome st.registry "" cwd0 _ now

theorem C10_missing_keys_defaults_witness :
    (HookEvent.mk "Unknown" "" "" none none none none).session_id = "" ∧
    (HookEvent.mk "Unknown" "" "" none none none none).event_name = "Unknown" ∧
    determine_state_from_event (HookEvent.mk "Unknown" "" "" none none none none) =
      .WORKING ∧
    ∃ st2 ops, handle_message ⟨.empty, true⟩
        ⟨.num 1, .num 2, .obj .nil, .num 3,
          some (.obj (.cons "foo" (.num 1) .nil)), "x"⟩ 5 7 = some (st2, ops) ∧
      (st2.registry.get "").isSome = true :=
  C10_missing_keys_defaults ⟨.empty, true⟩ _ (.cons "foo" (.num 1) .nil) .nil
    (HookEvent.mk "Unknown" "" "" none none none none) 5 7 rfl rfl rfl rfl rfl

/-- C1: wire-codec round trip: decoding the text produced by
`encode_hook_message p e` yields a message whose raw payload equals the
transmitted payload text (the serialization of `p`) and whose env equals
`e`, for every printable payload and env map. -/
theorem C1_wire_codec_roundtrip (p : Json) (e : JsonObj) (now : Nat)
    (hp : p.printable = true) (he : (Json.obj e).printable = true) :
    ∃ msg, decode_hook_message (encode_hook_message p e now) = some msg ∧
      msg.claude_raw = Json.dumps p ∧ msg.env = Json.obj e := by
  have hep := envelopeObj_printable now e (Json.dumps p).utf8ByteSize he
  have hgen := decode_wire_general (envelopeObj now e (Json.dumps p).utf8ByteSize)
    (Json.dumps p).data hep (.num PROTOCOL_VERSION) (.num (Int.ofNat now))
    (.num (Int.ofNat (Json.dumps p).utf8ByteSize)) rfl rfl rfl
  have henc : encode_hook_message p e now =
      String.mk ((Json.obj (envelopeObj now e (Json.dumps p).utf8ByteSize)).dumpsChars ++
        '\n' :: ((Json.dumps p).data ++ ['\n'])) := by
    rw [← stringMk_data (encode_hook_message p e now), encode_data]
  have hstrip : stripTrailingWs (Json.dumps p).data = (Json.dumps p).data :=
    stripTrailingWs_of_lastNotWs (dumpsChars_last p hp)
  have henv : objGet (envelopeObj now e (Json.dumps p).utf8ByteSize) "env" =
      some (.obj e) := rfl
  refine ⟨{ version := Json.num PROTOCOL_VERSION,
            timestamp := Json.num (Int.ofNat now),
            env := Json.obj e,
            claude_size := Json.num (Int.ofNat (Json.dumps p).utf8ByteSize),
            claude_data := claudeDataOf (Json.dumps p),
            claude_raw := Json.dumps p }, ?_, rfl, rfl⟩
  rw [henc, hgen, hstrip, stringMk_data, henv]
  rfl

theorem C1_wire_codec_roundtrip_witness :
    ∃ msg, decode_hook_message (encode_hook_message
        (.obj (.cons "hook_event_name" (.str "Stop") .nil))
        (.cons "GNOME_TERMINAL_SCREEN" (.str "/org/gnome/t/1") .nil) 3) = some msg ∧
      msg.claude_raw = Json.dumps (.obj (.cons "hook_event_name" (.str "Stop") .nil)) ∧
      msg.env = Json.obj (.cons "GNOME_TERMINAL_SCREEN" (.str "/org/gnome/t/1") .nil) :=
  C1_wire_codec_roundtrip _ _ 3 rfl rfl

/-- C2 (counterexample): decode does not return the payload text unchanged.
For an envelope-valid input whose (unparseable) payload text is "x ", the
decoded raw payload is "x": the trailing whitespace is stripped. -/
theorem C2_payload_text_counterexample :
    (decode_hook_message
        "\x7b\"version\":1,\"timestamp\":2,\"env\":\x7b\x7d,\"claude_size\":2\x7d\nx \n").map
          (fun m => (m.claude_data, m.claude_raw)) = some (none, "x")
      ∧ ("x" : String) ≠ "x " := by
  refine ⟨?_, by decide⟩
  rfl

/-- C2 (amended): for every input whose first line is a serialized envelope
object carrying the required keys and whose payload text (after stripping
the trailing whitespace that `data.strip()` removes) does not parse as
JSON, decode does not raise: it returns a message with a null
`claude_data` and with `claude_raw` equal to the payload text with its
trailing whitespace stripped — hence unchanged exactly when the payload
does not end in whitespace. -/
theorem C2_malformed_payload_amended (fs : JsonObj) (P : List Char)
    (hp : (Json.obj fs).printable = true) (jv jt jn : Json)
    (hv : objGet fs "version" = some jv) (ht : objGet fs "timestamp" = some jt)
    (hn : objGet fs "claude_size" = some jn)
    (hfail : claudeDataOf (String.mk (stripTrailingWs P)) = none) :
    decode_hook_message
        (String.mk ((Json.obj fs).dumpsChars ++ '\n' :: (P ++ ['\n']))) =
      some { version := jv, timestamp := jt,
             env := (objGet fs "env").getD (.obj .nil),
             claude_size := jn,
             claude_data := none,
             claude_raw := String.mk (stripTrailingWs P) } := by
  rw [decode_wire_general fs P hp jv jt jn hv ht hn, hfail]

theorem C2_malformed_payload_amended_witness :
    decode_hook_message
        (String.mk ((Json.obj (JsonObj.cons "version" (.num 1)
            (.cons "timestamp" (.num 2)
              (.cons "env" (.obj .nil)
                (.cons "claude_size" (.num 2) .nil))))).dumpsChars ++
          '\n' :: (['x', ' '] ++ ['\n']))) =
      some { version := Json.num 1, timestamp := Json.num 2,
             env := (objGet (JsonObj.cons "version" (.num 1)
                (.cons "timestamp" (.num 2)
                  (.cons "env" (.obj .nil)
                    (.cons "claude_size" (.num 2) .nil)))) "env").getD (.obj .nil),
             claude_size := Json.num 2,
             claude_data := none,
             claude_raw := String.mk (stripTrailingWs ['x', ' ']) } :=
  C2_malformed_payload_amended
    (JsonObj.cons "version" (.num 1)
      (.cons "timestamp" (.num 2)
        (.cons "env" (.obj .nil)
          (.cons "claude_size" (.num 2) .nil)))) ['x', ' ']
    rfl (.num 1) (.num 2) (.num 2) rfl rfl rfl rfl

end ClaudeNotify
